import Mathlib

/-!
# Verification of the carty-h5 encrypted landing page core

Shallow embedding of the two core units of the repository:

* `DecryptionService` (public/decryption-service.js): AES-GCM decrypt/encrypt
  of a JSON instruction set, base64 normalization, structural validation and
  error sanitization.
* `ClickHandler` (public/click-handler.js): routing decision between
  deeplink-first-with-fallback and direct navigation, auto-click scheduling,
  action tracking and the re-entrancy guard.

JavaScript values are modelled by the inductive `JSValue` (numbers are
modelled as integers-or-NaN, which covers every number appearing in the
code paths under verification; JS objects are association lists with
distinct keys).  Platform primitives that the source calls but does not
define (`JSON.parse`/`JSON.stringify`, `TextEncoder`/`TextDecoder`,
`atob`/`btoa`, `crypto.subtle` AES-GCM, `new URL`) are given executable
models that are faithful on the behaviours the theorems exercise; the AEAD
primitive is modelled as plaintext plus a 16-byte tag recomputable from
key, IV and plaintext.
-/

/-- JS numbers restricted to the values the verified code manipulates:
`NaN` or an integer. -/
inductive JSNum where
  | nan : JSNum
  | int (i : Int) : JSNum
deriving DecidableEq

/-- Model of a JavaScript value (no arrays or functions are needed by the
verified code paths). -/
inductive JSValue where
  | undef : JSValue
  | null : JSValue
  | bool (b : Bool) : JSValue
  | num (n : JSNum) : JSValue
  | str (s : List Char) : JSValue
  | obj (fields : List (String × JSValue)) : JSValue

namespace JSValue

mutual

/-- Boolean equality on JS values (structural, so that the kernel can
evaluate it). -/
def beq : JSValue → JSValue → Bool
  | undef, undef => true
  | null, null => true
  | bool a, bool b => a == b
  | num a, num b => a == b
  | str a, str b => a == b
  | obj as, obj bs => beqFields as bs
  | _, _ => false
termination_by structural v => v

/-- Boolean equality on field lists. -/
def beqFields : List (String × JSValue) → List (String × JSValue) → Bool
  | [], [] => true
  | (k1, v1) :: t1, (k2, v2) :: t2 => k1 == k2 && beq v1 v2 && beqFields t1 t2
  | _, _ => false
termination_by structural l => l

end

/-- Induction principle for `JSValue` that hands the inductive hypothesis to
every member of an object's field list. -/
def indOn {P : JSValue → Prop}
    (hu : P undef) (hn : P null) (hb : ∀ b, P (bool b)) (hm : ∀ n, P (num n))
    (hs : ∀ s, P (str s))
    (ho : ∀ fields, (∀ kv ∈ fields, P kv.2) → P (obj fields)) : ∀ v, P v
  | undef => hu
  | null => hn
  | bool b => hb b
  | num n => hm n
  | str s => hs s
  | obj fields => ho fields (fun kv hkv =>
      have : sizeOf kv.2 < 1 + sizeOf fields := by
        have h1 := List.sizeOf_lt_of_mem hkv
        have h2 : sizeOf kv.2 < sizeOf kv := by
          obtain ⟨a, b⟩ := kv
          simp
        omega
      indOn hu hn hb hm hs ho kv.2)

theorem beqFields_refl (fields : List (String × JSValue))
    (ih : ∀ kv ∈ fields, beq kv.2 kv.2 = true) : beqFields fields fields = true := by
  induction fields with
  | nil => rfl
  | cons kv t iht =>
    obtain ⟨k, v⟩ := kv
    have hv : beq v v = true := ih (k, v) (by simp)
    have ht : beqFields t t = true := iht (fun kv hkv => ih kv (by simp [hkv]))
    simp [beqFields, hv, ht]

theorem beq_refl : ∀ v : JSValue, beq v v = true := by
  intro v
  induction v using indOn with
  | hu => rfl
  | hn => rfl
  | hb b => simp [beq]
  | hm n => simp [beq]
  | hs s => simp [beq]
  | ho fields ih => exact beqFields_refl fields ih

theorem beqFields_eq (fields : List (String × JSValue))
    (ih : ∀ kv ∈ fields, ∀ w, beq kv.2 w = true → kv.2 = w) :
    ∀ gs, beqFields fields gs = true → fields = gs := by
  induction fields with
  | nil =>
    intro gs h
    cases gs with
    | nil => rfl
    | cons g gt => simp [beqFields] at h
  | cons kv t iht =>
    intro gs h
    cases gs with
    | nil => obtain ⟨k, v⟩ := kv; simp [beqFields] at h
    | cons g gt =>
      obtain ⟨k, v⟩ := kv
      obtain ⟨gk, gv⟩ := g
      simp only [beqFields, Bool.and_eq_true, beq_iff_eq] at h
      obtain ⟨⟨hk, hv⟩, ht⟩ := h
      have hveq : v = gv := ih (k, v) (by simp) gv hv
      have hteq : t = gt := iht (fun kv hkv => ih kv (by simp [hkv])) gt ht
      simp [hk, hveq, hteq]

theorem beq_eq : ∀ v w : JSValue, beq v w = true → v = w := by
  intro v
  induction v using indOn with
  | hu => intro w h; cases w <;> first | rfl | simp [beq] at h
  | hn => intro w h; cases w <;> first | rfl | simp [beq] at h
  | hb b => intro w h; cases w <;> simp_all [beq]
  | hm n => intro w h; cases w <;> simp_all [beq]
  | hs s => intro w h; cases w <;> simp_all [beq]
  | ho fields ih =>
    intro w h
    cases w with
    | obj gs => exact congrArg obj (beqFields_eq fields ih gs h)
    | undef => simp [beq] at h
    | null => simp [beq] at h
    | bool b => simp [beq] at h
    | num n => simp [beq] at h
    | str s => simp [beq] at h

instance : DecidableEq JSValue := fun a b =>
  decidable_of_iff (beq a b = true)
    ⟨beq_eq a b, fun h => h ▸ beq_refl a⟩

/-- Property access `data.k`: first binding of `k` in the object, `undefined`
otherwise (also for primitive receivers, whose own properties are never hit
by the verified code). -/
def getProp : JSValue → String → JSValue
  | obj fields, k =>
    match fields.find? (fun p => p.1 == k) with
    | some p => p.2
    | none => undef
  | _, _ => undef

/-- JS truthiness: `undefined`, `null`, `false`, `0`, `NaN` and `""` are
falsy, everything else is truthy. -/
def truthy : JSValue → Bool
  | undef => false
  | null => false
  | bool b => b
  | num JSNum.nan => false
  | num (JSNum.int i) => i != 0
  | str s => s != []
  | obj _ => true

/-- `typeof v === 'string'`. -/
def isStringV : JSValue → Bool
  | str _ => true
  | _ => false

/-- `v === undefined`. -/
def isUndef : JSValue → Bool
  | undef => true
  | _ => false

/-- `typeof v === 'object'` (true for `null` as well, as in JS). -/
def isObjectType : JSValue → Bool
  | obj _ => true
  | null => true
  | _ => false

/-- Decimal digits of a natural number, with explicit fuel so that the
definition is structurally recursive and kernel-evaluable. -/
def natDigitsFuel : Nat → Nat → List Char
  | 0, _ => []
  | fuel + 1, n =>
    if n < 10 then [Char.ofNat (48 + n)]
    else natDigitsFuel fuel (n / 10) ++ [Char.ofNat (48 + n % 10)]

/-- Decimal digits of a natural number. -/
def natDigits (n : Nat) : List Char := natDigitsFuel (n + 1) n

/-- Decimal rendering of an integer. -/
def intChars (i : Int) : List Char :=
  if i < 0 then '-' :: natDigits i.natAbs else natDigits i.natAbs

/-- JS `String(v)` coercion for the values the code stringifies. -/
def jsToString : JSValue → List Char
  | undef => "undefined".toList
  | null => "null".toList
  | bool true => "true".toList
  | bool false => "false".toList
  | num JSNum.nan => "NaN".toList
  | num (JSNum.int i) => intChars i
  | str s => s
  | obj _ => "[object Object]".toList

/-- `Number(v)` coercion.  String-to-number parsing is modelled for the
shapes the code can meet: an optional sign followed by decimal digits (the
empty string coerces to `0`, anything else to `NaN`). -/
def toNumber : JSValue → JSNum
  | undef => JSNum.nan
  | null => JSNum.int 0
  | bool true => JSNum.int 1
  | bool false => JSNum.int 0
  | num n => n
  | str s =>
    let digitsVal : List Char → JSNum := fun ds =>
      if ds ≠ [] ∧ ds.all (fun c => c.isDigit) then
        JSNum.int (ds.foldl (fun a c => a * 10 + (c.toNat - 48)) 0)
      else JSNum.nan
    if s = [] then JSNum.int 0
    else if s.head? = some '-' then
      match digitsVal s.tail with
      | JSNum.int i => JSNum.int (-i)
      | JSNum.nan => JSNum.nan
    else digitsVal s
  | obj _ => JSNum.nan

end JSValue

/-- `isNaN` test on the number model. -/
def JSNum.isNaN : JSNum → Bool
  | JSNum.nan => true
  | JSNum.int _ => false

/-- `n < 0` test on the number model (`NaN < 0` is false in JS). -/
def JSNum.isNeg : JSNum → Bool
  | JSNum.nan => false
  | JSNum.int i => i < 0

deriving instance DecidableEq for Except

/-- A thrown `Error`: its message, plus the `originalError` attachment that
`handleDecryptionError` stores on the sanitized error. -/
structure JSError where
  msg : List Char
  original : Option (List Char) := none
deriving DecidableEq

/-- Model of the platform's `new URL(u)` success test, as used by
`DecryptionService.isValidUrl` and `ClickHandler.openClickUrl`: a
syntactically valid absolute URL needs a scheme (letter followed by
letters/digits/`+`/`-`/`.`) before a `:`; for the special schemes the
WHATWG parser additionally demands `//` and a nonempty host. -/
def isValidUrlChars (cs : List Char) : Bool :=
  let isSchemeChar : Char → Bool := fun c => c.isAlphanum || c == '+' || c == '-' || c == '.'
  match cs.splitOn ':' with
  | [] => false
  | [_] => false
  | scheme :: rest0 =>
    let rest := (rest0.intersperse [':']).flatten
    let lower := scheme.map Char.toLower
    let special := [String.toList "http", String.toList "https", String.toList "ws",
                    String.toList "wss", String.toList "ftp", String.toList "file"]
    decide (scheme ≠ []) && scheme.all isSchemeChar &&
      (match scheme.head? with
       | some c => c.isAlpha
       | none => false) &&
      (if special.contains lower then
        match rest with
        | '/' :: '/' :: h :: _ => h != '/'
        | _ => false
      else true)

open JSValue in
/-- `DecryptionService.isValidUrl` applied to a JS value (JS coerces the
argument to a string before URL parsing). -/
def isValidUrlV (v : JSValue) : Bool :=
  isValidUrlChars (jsToString v)

/-- The validated instruction-set record built by
`DecryptionService.validateInstructionSet` (all fields are JS values;
`auto_click` and `deeplink_priority` always hold booleans there). -/
structure InstructionSetV where
  image_url : JSValue
  click_url : JSValue
  deeplink_url : JSValue
  auto_click : JSValue
  deeplink_priority : JSValue
  auto_click_delay : JSValue
  title : JSValue
  description : JSValue
deriving DecidableEq

open JSValue in
/-- `DecryptionService.validateInstructionSet` (decryption-service.js
lines 222-268), translated clause for clause. -/
def validateInstructionSet (data : JSValue) : Except JSError InstructionSetV :=
  if !truthy data || !isObjectType data then
    .error { msg := "Invalid instruction set - must be an object".toList }
  else if !truthy (getProp data "click_url") || !isStringV (getProp data "click_url") then
    .error { msg := "Invalid instruction set - click_url is required and must be a string".toList }
  else if truthy (getProp data "image_url") && !isValidUrlV (getProp data "image_url") then
    .error { msg := "Invalid instruction set - image_url must be a valid URL".toList }
  else
    let instructionSet : InstructionSetV :=
      { image_url := getProp data "image_url"
        click_url := if truthy (getProp data "click_url") then getProp data "click_url" else null
        deeplink_url := if truthy (getProp data "deeplink_url") then getProp data "deeplink_url" else null
        auto_click := bool (truthy (getProp data "auto_click"))
        deeplink_priority := bool (truthy (getProp data "deeplink_priority"))
        auto_click_delay := null
        title := getProp data "title"
        description := getProp data "description" }
    if truthy instructionSet.click_url && !isValidUrlV instructionSet.click_url then
      .error { msg := "Invalid instruction set - click_url must be a valid URL".toList }
    else if truthy instructionSet.deeplink_url && !isStringV instructionSet.deeplink_url then
      .error { msg := "Invalid instruction set - deeplink_url must be a string".toList }
    else if !(getProp data "auto_click_delay").isUndef then
      let delay := toNumber (getProp data "auto_click_delay")
      if delay.isNaN || delay.isNeg then
        .error { msg := "Invalid instruction set - auto_click_delay must be a non-negative number".toList }
      else .ok { instructionSet with auto_click_delay := num delay }
    else .ok instructionSet

example :
    validateInstructionSet (.obj [("click_url", .str "https://x.test".toList)]) =
      .ok ⟨.undef, .str "https://x.test".toList, .null, .bool false, .bool false, .null,
        .undef, .undef⟩ := by decide

example :
    validateInstructionSet (.obj [("image_url", .str "https://x.test".toList)]) =
      .error { msg := "Invalid instruction set - click_url is required and must be a string".toList } := by
  decide

/-! ## UTF-8 (model of the platform `TextEncoder`/`TextDecoder`) -/

/-- UTF-8 bytes of one character. -/
def utf8EncodeChar (c : Char) : List Nat :=
  let n := c.toNat
  if n < 0x80 then [n]
  else if n < 0x800 then [0xC0 + n / 64, 0x80 + n % 64]
  else if n < 0x10000 then [0xE0 + n / 4096, 0x80 + n / 64 % 64, 0x80 + n % 64]
  else [0xF0 + n / 262144, 0x80 + n / 4096 % 64, 0x80 + n / 64 % 64, 0x80 + n % 64]

/-- UTF-8 bytes of a string (`new TextEncoder().encode(...)`). -/
def utf8Encode (s : List Char) : List Nat :=
  (s.map utf8EncodeChar).flatten

/-- Fuel-driven UTF-8 decoder (one unit of fuel per decoded character). -/
def utf8DecodeFuel : Nat → List Nat → List Char
  | 0, _ => []
  | _, [] => []
  | fuel + 1, b :: rest =>
    if b < 0x80 then Char.ofNat b :: utf8DecodeFuel fuel rest
    else if b < 0xE0 then
      match rest with
      | b1 :: rest1 => Char.ofNat ((b - 0xC0) * 64 + (b1 - 0x80)) :: utf8DecodeFuel fuel rest1
      | [] => []
    else if b < 0xF0 then
      match rest with
      | b1 :: b2 :: rest2 =>
        Char.ofNat ((b - 0xE0) * 4096 + (b1 - 0x80) * 64 + (b2 - 0x80)) :: utf8DecodeFuel fuel rest2
      | _ => []
    else
      match rest with
      | b1 :: b2 :: b3 :: rest3 =>
        Char.ofNat ((b - 0xF0) * 262144 + (b1 - 0x80) * 4096 + (b2 - 0x80) * 64 + (b3 - 0x80)) ::
          utf8DecodeFuel fuel rest3
      | _ => []

/-- `new TextDecoder().decode(...)` on well-formed UTF-8 input. -/
def textDecode (bs : List Nat) : List Char := utf8DecodeFuel (bs.length + 1) bs

theorem utf8DecodeFuel_encodeChar (c : Char) (fuel : Nat) (rest : List Nat) :
    utf8DecodeFuel (fuel + 1) (utf8EncodeChar c ++ rest) = c :: utf8DecodeFuel fuel rest := by
  have hv : c.toNat < 0x110000 := by
    rcases c.valid with h | h
    · exact Nat.lt_trans h (by norm_num)
    · exact h.2
  by_cases h1 : c.toNat < 0x80
  · simp [utf8EncodeChar, h1, utf8DecodeFuel, Char.ofNat_toNat]
  · by_cases h2 : c.toNat < 0x800
    · have e1 : ¬ (0xC0 + c.toNat / 64 < 0x80) := by omega
      have e2 : 0xC0 + c.toNat / 64 < 0xE0 := by omega
      have e4 : c.toNat / 64 * 64 + c.toNat % 64 = c.toNat := by omega
      simp [utf8EncodeChar, h1, h2, utf8DecodeFuel, e1, e2, e4, Char.ofNat_toNat]
    · by_cases h3 : c.toNat < 0x10000
      · have e1 : ¬ (0xE0 + c.toNat / 4096 < 0x80) := by omega
        have e2 : ¬ (0xE0 + c.toNat / 4096 < 0xE0) := by omega
        have e2' : 0xE0 + c.toNat / 4096 < 0xF0 := by omega
        have e4 : c.toNat / 4096 * 4096 + c.toNat / 64 % 64 * 64 + c.toNat % 64 = c.toNat := by
          omega
        simp [utf8EncodeChar, h1, h2, h3, utf8DecodeFuel, e1, e2, e2', e4, Char.ofNat_toNat]
      · have e1 : ¬ (0xF0 + c.toNat / 262144 < 0x80) := by omega
        have e2 : ¬ (0xF0 + c.toNat / 262144 < 0xE0) := by omega
        have e2' : ¬ (0xF0 + c.toNat / 262144 < 0xF0) := by omega
        have e4 : c.toNat / 262144 * 262144 + c.toNat / 4096 % 64 * 4096 +
            c.toNat / 64 % 64 * 64 + c.toNat % 64 = c.toNat := by omega
        simp [utf8EncodeChar, h1, h2, h3, utf8DecodeFuel, e1, e2, e2', e4, Char.ofNat_toNat]

theorem utf8DecodeFuel_encode (s : List Char) :
    ∀ fuel, s.length < fuel → utf8DecodeFuel fuel (utf8Encode s) = s := by
  induction s with
  | nil =>
    intro fuel _
    cases fuel with
    | zero => rfl
    | succ f => rfl
  | cons c t ih =>
    intro fuel hf
    obtain ⟨f, rfl⟩ : ∃ f, fuel = f + 1 := ⟨fuel - 1, by omega⟩
    have : utf8Encode (c :: t) = utf8EncodeChar c ++ utf8Encode t := by
      simp [utf8Encode]
    rw [this, utf8DecodeFuel_encodeChar]
    have ht : t.length < f := by simp at hf; omega
    rw [ih f ht]

theorem utf8Encode_length_ge (s : List Char) : s.length ≤ (utf8Encode s).length := by
  induction s with
  | nil => simp [utf8Encode]
  | cons c t ih =>
    have : utf8Encode (c :: t) = utf8EncodeChar c ++ utf8Encode t := by simp [utf8Encode]
    rw [this]
    have hc : 1 ≤ (utf8EncodeChar c).length := by
      simp only [utf8EncodeChar]
      split
      · simp
      · split
        · simp
        · split <;> simp
    simp only [List.length_append, List.length_cons]
    omega

/-- Decoding inverts encoding. -/
theorem textDecode_utf8Encode (s : List Char) : textDecode (utf8Encode s) = s := by
  have := utf8Encode_length_ge s
  exact utf8DecodeFuel_encode s ((utf8Encode s).length + 1) (by omega)

/-! ## Base64 (models of the platform `btoa`/`atob`) -/

/-- Character for a six-bit group. -/
def sixToChar (n : Nat) : Char :=
  if n < 26 then Char.ofNat (65 + n)
  else if n < 52 then Char.ofNat (97 + (n - 26))
  else if n < 62 then Char.ofNat (48 + (n - 52))
  else if n = 62 then '+'
  else '/'

/-- Six-bit group for a base64 character, `none` on a non-alphabet character. -/
def charToSix (c : Char) : Option Nat :=
  if 'A' ≤ c ∧ c ≤ 'Z' then some (c.toNat - 65)
  else if 'a' ≤ c ∧ c ≤ 'z' then some (c.toNat - 97 + 26)
  else if '0' ≤ c ∧ c ≤ '9' then some (c.toNat - 48 + 52)
  else if c = '+' then some 62
  else if c = '/' then some 63
  else none

/-- `btoa` on a byte sequence (all bytes < 256), producing padded base64. -/
def btoaChars : List Nat → List Char
  | [] => []
  | [b0] => [sixToChar (b0 / 4), sixToChar (b0 % 4 * 16), '=', '=']
  | [b0, b1] => [sixToChar (b0 / 4), sixToChar (b0 % 4 * 16 + b1 / 16), sixToChar (b1 % 16 * 4), '=']
  | b0 :: b1 :: b2 :: rest =>
    sixToChar (b0 / 4) :: sixToChar (b0 % 4 * 16 + b1 / 16) ::
      sixToChar (b1 % 16 * 4 + b2 / 64) :: sixToChar (b2 % 64) :: btoaChars rest

/-- `atob` on a padded base64 string (length a multiple of 4, which is what
the service always feeds it after normalization); `none` models the thrown
`InvalidCharacterError`. -/
def atobChars : List Char → Option (List Nat)
  | [] => some []
  | c0 :: c1 :: c2 :: c3 :: rest =>
    match charToSix c0, charToSix c1 with
    | some s0, some s1 =>
      if c2 = '=' then
        if c3 = '=' ∧ rest = [] then some [s0 * 4 + s1 / 16] else none
      else
        match charToSix c2 with
        | some s2 =>
          if c3 = '=' then
            if rest = [] then some [s0 * 4 + s1 / 16, s1 % 16 * 16 + s2 / 4] else none
          else
            match charToSix c3, atobChars rest with
            | some s3, some tail =>
              some ((s0 * 4 + s1 / 16) :: (s1 % 16 * 16 + s2 / 4) :: (s2 % 4 * 64 + s3) :: tail)
            | _, _ => none
        | none => none
    | _, _ => none
  | _ => none

theorem charToSix_sixToChar (n : Nat) (h : n < 64) : charToSix (sixToChar n) = some n := by
  revert h
  revert n
  decide

theorem sixToChar_ne_pad (n : Nat) (h : n < 64) : sixToChar n ≠ '=' := by
  revert h
  revert n
  decide

theorem atobChars_btoaChars (bytes : List Nat) (h : ∀ b ∈ bytes, b < 256) :
    atobChars (btoaChars bytes) = some bytes := by
  induction bytes using btoaChars.induct with
  | case1 => rfl
  | case2 b0 =>
    have hb0 : b0 < 256 := h b0 (by simp)
    have h1 : b0 / 4 < 64 := by omega
    have h2 : b0 % 4 * 16 < 64 := by omega
    have e : b0 / 4 * 4 + b0 % 4 * 16 / 16 = b0 := by omega
    have e' : b0 / 4 * 4 + b0 % 4 = b0 := by omega
    simp [btoaChars, atobChars, charToSix_sixToChar _ h1, charToSix_sixToChar _ h2, e, e']
  | case3 b0 b1 =>
    have hb0 : b0 < 256 := h b0 (by simp)
    have hb1 : b1 < 256 := h b1 (by simp)
    have h1 : b0 / 4 < 64 := by omega
    have h2 : b0 % 4 * 16 + b1 / 16 < 64 := by omega
    have h3 : b1 % 16 * 4 < 64 := by omega
    have e1 : b0 / 4 * 4 + (b0 % 4 * 16 + b1 / 16) / 16 = b0 := by omega
    have e2 : (b0 % 4 * 16 + b1 / 16) % 16 * 16 + b1 % 16 * 4 / 4 = b1 := by omega
    have e2' : (b0 % 4 * 16 + b1 / 16) % 16 * 16 + b1 % 16 = b1 := by omega
    simp [btoaChars, atobChars, charToSix_sixToChar _ h1, charToSix_sixToChar _ h2,
      charToSix_sixToChar _ h3, e1, e2, e2', sixToChar_ne_pad _ h3]
  | case4 b0 b1 b2 rest ih =>
    have hb0 : b0 < 256 := h b0 (by simp)
    have hb1 : b1 < 256 := h b1 (by simp)
    have hb2 : b2 < 256 := h b2 (by simp)
    have h1 : b0 / 4 < 64 := by omega
    have h2 : b0 % 4 * 16 + b1 / 16 < 64 := by omega
    have h3 : b1 % 16 * 4 + b2 / 64 < 64 := by omega
    have h4 : b2 % 64 < 64 := by omega
    have e1 : b0 / 4 * 4 + (b0 % 4 * 16 + b1 / 16) / 16 = b0 := by omega
    have e2 : (b0 % 4 * 16 + b1 / 16) % 16 * 16 + (b1 % 16 * 4 + b2 / 64) / 4 = b1 := by omega
    have e3 : (b1 % 16 * 4 + b2 / 64) % 4 * 64 + b2 % 64 = b2 := by omega
    have hrest : ∀ b ∈ rest, b < 256 := fun b hb => h b (by simp [hb])
    simp [btoaChars, atobChars, charToSix_sixToChar _ h1, charToSix_sixToChar _ h2,
      charToSix_sixToChar _ h3, charToSix_sixToChar _ h4, e1, e2, e3,
      sixToChar_ne_pad _ h3, sixToChar_ne_pad _ h4, ih hrest]


/-! ## JSON (models of the platform `JSON.stringify` / `JSON.parse`) -/

/-- Lowercase hex digit. -/
def hexDigit (n : Nat) : Char :=
  if n < 10 then Char.ofNat (48 + n) else Char.ofNat (87 + n)

/-- `JSON.stringify` escaping of one string character. -/
def escChar (c : Char) : List Char :=
  if c = '"' then ['\\', '"']
  else if c = '\\' then ['\\', '\\']
  else if c = '\n' then ['\\', 'n']
  else if c = '\r' then ['\\', 'r']
  else if c = '\t' then ['\\', 't']
  else if c.toNat = 8 then ['\\', 'b']
  else if c.toNat = 12 then ['\\', 'f']
  else if c.toNat < 32 then ['\\', 'u', '0', '0', hexDigit (c.toNat / 16), hexDigit (c.toNat % 16)]
  else [c]

/-- `JSON.stringify` escaping of a string body. -/
def escString : List Char → List Char
  | [] => []
  | c :: t => escChar c ++ escString t

/-- A JSON string literal. -/
def jsonQuote (s : List Char) : List Char := '"' :: escString s ++ ['"']

mutual

/-- `JSON.stringify` (no whitespace), on non-`undefined` values.  `NaN`
serializes as `null`, exactly as in JS. -/
def jsonStringify : JSValue → List Char
  | .undef => []
  | .null => "null".toList
  | .bool true => "true".toList
  | .bool false => "false".toList
  | .num JSNum.nan => "null".toList
  | .num (JSNum.int i) => JSValue.intChars i
  | .str s => jsonQuote s
  | .obj fields => '{' :: jsonMembers fields ++ ['}']
termination_by structural v => v

/-- Object member serialization; fields holding `undefined` are dropped,
exactly as `JSON.stringify` drops them. -/
def jsonMembers : List (String × JSValue) → List Char
  | [] => []
  | (k, v) :: t =>
    if v.isUndef then jsonMembers t
    else jsonQuote k.toList ++ ':' :: jsonStringify v ++
      (if t.any (fun kv => !kv.2.isUndef) then ',' :: jsonMembers t else jsonMembers t)
termination_by structural l => l

end

mutual

/-- The value produced by `JSON.parse (JSON.stringify v)`: `NaN` becomes
`null` and `undefined`-valued fields disappear. -/
def jsonRt : JSValue → JSValue
  | .undef => .undef
  | .null => .null
  | .bool b => .bool b
  | .num JSNum.nan => .null
  | .num (JSNum.int i) => .num (JSNum.int i)
  | .str s => .str s
  | .obj fields => .obj (jsonRtFields fields)
termination_by structural v => v

/-- Field-list version of `jsonRt`. -/
def jsonRtFields : List (String × JSValue) → List (String × JSValue)
  | [] => []
  | (k, v) :: t => if v.isUndef then jsonRtFields t else (k, jsonRt v) :: jsonRtFields t
termination_by structural l => l

end

/-- Numeric value of a digit run. -/
def digitsToNat (ds : List Char) : Nat :=
  ds.foldl (fun a c => a * 10 + (c.toNat - 48)) 0

/-- Parse a run of decimal digits (integer-valued JSON numbers, which is
all the embedded code produces). -/
def parseJsonNat (cs : List Char) : Option (Nat × List Char) :=
  let ds := cs.takeWhile (fun c => c.isDigit)
  if ds = [] then none else some (digitsToNat ds, cs.dropWhile (fun c => c.isDigit))

/-- Hex digit value. -/
def hexVal (c : Char) : Option Nat :=
  if '0' ≤ c ∧ c ≤ '9' then some (c.toNat - 48)
  else if 'a' ≤ c ∧ c ≤ 'f' then some (c.toNat - 87)
  else if 'A' ≤ c ∧ c ≤ 'F' then some (c.toNat - 55)
  else none

/-- Parse a JSON string body (after the opening quote), returning the
unescaped content and the remainder after the closing quote. -/
def parseStringBody : List Char → Option (List Char × List Char)
  | [] => none
  | c :: rest =>
    if c = '"' then some ([], rest)
    else if c = '\\' then
      match rest with
      | [] => none
      | e :: rest1 =>
        if e = '"' then (parseStringBody rest1).map (fun p => ('"' :: p.1, p.2))
        else if e = '\\' then (parseStringBody rest1).map (fun p => ('\\' :: p.1, p.2))
        else if e = '/' then (parseStringBody rest1).map (fun p => ('/' :: p.1, p.2))
        else if e = 'n' then (parseStringBody rest1).map (fun p => ('\n' :: p.1, p.2))
        else if e = 'r' then (parseStringBody rest1).map (fun p => ('\r' :: p.1, p.2))
        else if e = 't' then (parseStringBody rest1).map (fun p => ('\t' :: p.1, p.2))
        else if e = 'b' then (parseStringBody rest1).map (fun p => (Char.ofNat 8 :: p.1, p.2))
        else if e = 'f' then (parseStringBody rest1).map (fun p => (Char.ofNat 12 :: p.1, p.2))
        else if e = 'u' then
          match rest1 with
          | h1 :: h2 :: h3 :: h4 :: rest4 =>
            match hexVal h1, hexVal h2, hexVal h3, hexVal h4 with
            | some a, some b, some c', some d =>
              (parseStringBody rest4).map
                (fun p => (Char.ofNat (a * 4096 + b * 256 + c' * 16 + d) :: p.1, p.2))
            | _, _, _, _ => none
          | _ => none
        else none
    else (parseStringBody rest).map (fun p => (c :: p.1, p.2))

mutual

/-- Fuel-driven JSON value parser (integer numbers, strings, booleans,
`null` and objects; no whitespace skipping, which `JSON.stringify` output
never contains). -/
def parseJsonValue : Nat → List Char → Option (JSValue × List Char)
  | 0, _ => none
  | fuel + 1, cs =>
    match cs with
    | [] => none
    | c :: rest =>
      if c = 'n' then
        match rest with
        | 'u' :: 'l' :: 'l' :: r => some (.null, r)
        | _ => none
      else if c = 't' then
        match rest with
        | 'r' :: 'u' :: 'e' :: r => some (.bool true, r)
        | _ => none
      else if c = 'f' then
        match rest with
        | 'a' :: 'l' :: 's' :: 'e' :: r => some (.bool false, r)
        | _ => none
      else if c = '"' then (parseStringBody rest).map (fun p => (.str p.1, p.2))
      else if c = '{' then
        match rest with
        | '}' :: r => some (.obj [], r)
        | _ => (parseJsonMembers fuel rest).map (fun p => (.obj p.1, p.2))
      else if c = '-' then
        (parseJsonNat rest).map (fun p => (.num (JSNum.int (-(p.1 : Int))), p.2))
      else if c.isDigit then
        (parseJsonNat (c :: rest)).map (fun p => (.num (JSNum.int (p.1 : Int)), p.2))
      else none
termination_by structural fuel => fuel

/-- Fuel-driven member-list parser (after the opening `{`, for a nonempty
member list). -/
def parseJsonMembers : Nat → List Char → Option (List (String × JSValue) × List Char)
  | 0, _ => none
  | fuel + 1, cs =>
    match cs with
    | '"' :: rest =>
      match parseStringBody rest with
      | none => none
      | some (k, r1) =>
        match r1 with
        | ':' :: r2 =>
          match parseJsonValue fuel r2 with
          | none => none
          | some (v, r3) =>
            match r3 with
            | ',' :: r4 => (parseJsonMembers fuel r4).map (fun p => ((String.mk k, v) :: p.1, p.2))
            | '}' :: r4 => some ([(String.mk k, v)], r4)
            | _ => none
        | _ => none
    | _ => none
termination_by structural fuel => fuel

end

/-- `JSON.parse`: the whole text must parse as one value. -/
def jsonParse (text : List Char) : Option JSValue :=
  match parseJsonValue (text.length + 1) text with
  | some (v, []) => some v
  | _ => none

mutual

/-- Parser fuel needed for a printed value. -/
def pfuel : JSValue → Nat
  | .obj fields => 1 + pfuelF fields
  | _ => 1
termination_by structural v => v

/-- Parser fuel needed for a printed member list. -/
def pfuelF : List (String × JSValue) → Nat
  | [] => 0
  | (_, v) :: t => if v.isUndef then pfuelF t else 1 + pfuel v + pfuelF t
termination_by structural l => l

end

/-- The remainder after a printed number must not begin with a digit. -/
def noDigitHead : List Char → Bool
  | [] => true
  | c :: _ => !c.isDigit

theorem digitChar_toNat : ∀ d, d < 10 → (Char.ofNat (48 + d)).toNat = 48 + d := by decide

theorem digitChar_isDigit : ∀ d, d < 10 → (Char.ofNat (48 + d)).isDigit = true := by decide

theorem digitsToNat_append_last (ds : List Char) (c : Char) :
    digitsToNat (ds ++ [c]) = digitsToNat ds * 10 + (c.toNat - 48) := by
  simp [digitsToNat, List.foldl_append]

theorem natDigitsFuel_spec :
    ∀ fuel n, n < fuel →
      JSValue.natDigitsFuel fuel n ≠ [] ∧
        (JSValue.natDigitsFuel fuel n).all (fun c => c.isDigit) = true ∧
        digitsToNat (JSValue.natDigitsFuel fuel n) = n := by
  intro fuel
  induction fuel with
  | zero => intro n h; omega
  | succ f ih =>
    intro n h
    by_cases h10 : n < 10
    · refine ⟨by simp [JSValue.natDigitsFuel, h10], ?_, ?_⟩
      · simp [JSValue.natDigitsFuel, h10, digitChar_isDigit n h10]
      · simp [JSValue.natDigitsFuel, h10, digitsToNat, digitChar_toNat n h10]
    · have hdivlt : n / 10 < f := by omega
      obtain ⟨hne, hall, hval⟩ := ih (n / 10) hdivlt
      have hmod : n % 10 < 10 := Nat.mod_lt _ (by omega)
      refine ⟨by simp [JSValue.natDigitsFuel, h10], ?_, ?_⟩
      · simp only [JSValue.natDigitsFuel, h10, if_false, List.all_append, Bool.and_eq_true]
        exact ⟨hall, by simp [digitChar_isDigit _ hmod]⟩
      · rw [JSValue.natDigitsFuel, if_neg h10, digitsToNat_append_last, hval,
          digitChar_toNat _ hmod]
        omega

theorem natDigits_spec (n : Nat) :
    JSValue.natDigits n ≠ [] ∧ (JSValue.natDigits n).all (fun c => c.isDigit) = true ∧
      digitsToNat (JSValue.natDigits n) = n :=
  natDigitsFuel_spec (n + 1) n (by omega)

theorem takeWhile_all_append {p : Char → Bool} (ds rest : List Char) (h : ds.all p = true) :
    (ds ++ rest).takeWhile p = ds ++ rest.takeWhile p := by
  induction ds with
  | nil => simp
  | cons c t ih =>
    simp only [List.all_cons, Bool.and_eq_true] at h
    simp [List.takeWhile_cons, h.1, ih h.2]

theorem dropWhile_all_append {p : Char → Bool} (ds rest : List Char) (h : ds.all p = true) :
    (ds ++ rest).dropWhile p = rest.dropWhile p := by
  induction ds with
  | nil => simp
  | cons c t ih =>
    simp only [List.all_cons, Bool.and_eq_true] at h
    simp [List.dropWhile_cons, h.1, ih h.2]

theorem takeWhile_noDigitHead (rest : List Char) (h : noDigitHead rest = true) :
    rest.takeWhile (fun c => c.isDigit) = [] := by
  cases rest with
  | nil => rfl
  | cons c t =>
    simp only [noDigitHead, Bool.not_eq_eq_eq_not, Bool.not_true] at h
    simp [List.takeWhile_cons, h]

theorem dropWhile_noDigitHead (rest : List Char) (h : noDigitHead rest = true) :
    rest.dropWhile (fun c => c.isDigit) = rest := by
  cases rest with
  | nil => rfl
  | cons c t =>
    simp only [noDigitHead, Bool.not_eq_eq_eq_not, Bool.not_true] at h
    simp [List.dropWhile_cons, h]

theorem parseJsonNat_digits (n : Nat) (rest : List Char) (hrest : noDigitHead rest = true) :
    parseJsonNat (JSValue.natDigits n ++ rest) = some (n, rest) := by
  obtain ⟨hne, hall, hval⟩ := natDigits_spec n
  simp only [parseJsonNat, takeWhile_all_append _ _ hall, dropWhile_all_append _ _ hall,
    takeWhile_noDigitHead rest hrest, dropWhile_noDigitHead rest hrest, List.append_nil]
  simp [hne, hval]

theorem hexVal_hexDigit : ∀ n, n < 16 → hexVal (hexDigit n) = some n := by decide

theorem psb_quote (X : List Char) : parseStringBody ('"' :: X) = some ([], X) := by
  rw [parseStringBody.eq_def]
  simp

theorem psb_esc_quote (X : List Char) :
    parseStringBody ('\\' :: '"' :: X) = (parseStringBody X).map (fun p => ('"' :: p.1, p.2)) := by
  rw [parseStringBody.eq_def]
  simp

theorem psb_esc_backslash (X : List Char) :
    parseStringBody ('\\' :: '\\' :: X) = (parseStringBody X).map (fun p => ('\\' :: p.1, p.2)) := by
  rw [parseStringBody.eq_def]
  simp

theorem psb_esc_n (X : List Char) :
    parseStringBody ('\\' :: 'n' :: X) = (parseStringBody X).map (fun p => ('\n' :: p.1, p.2)) := by
  rw [parseStringBody.eq_def]
  simp

theorem psb_esc_r (X : List Char) :
    parseStringBody ('\\' :: 'r' :: X) = (parseStringBody X).map (fun p => ('\r' :: p.1, p.2)) := by
  rw [parseStringBody.eq_def]
  simp

theorem psb_esc_t (X : List Char) :
    parseStringBody ('\\' :: 't' :: X) = (parseStringBody X).map (fun p => ('\t' :: p.1, p.2)) := by
  rw [parseStringBody.eq_def]
  simp

theorem psb_esc_b (X : List Char) :
    parseStringBody ('\\' :: 'b' :: X) =
      (parseStringBody X).map (fun p => (Char.ofNat 8 :: p.1, p.2)) := by
  rw [parseStringBody.eq_def]
  simp

theorem psb_esc_f (X : List Char) :
    parseStringBody ('\\' :: 'f' :: X) =
      (parseStringBody X).map (fun p => (Char.ofNat 12 :: p.1, p.2)) := by
  rw [parseStringBody.eq_def]
  simp

theorem psb_esc_u (a b c d : Char) (va vb vc vd : Nat) (X : List Char)
    (ha : hexVal a = some va) (hb : hexVal b = some vb)
    (hc : hexVal c = some vc) (hd : hexVal d = some vd) :
    parseStringBody ('\\' :: 'u' :: a :: b :: c :: d :: X) =
      (parseStringBody X).map
        (fun p => (Char.ofNat (va * 4096 + vb * 256 + vc * 16 + vd) :: p.1, p.2)) := by
  rw [parseStringBody.eq_def]
  simp [ha, hb, hc, hd]

theorem psb_other (c : Char) (X : List Char) (h1 : c ≠ '"') (h2 : c ≠ '\\') :
    parseStringBody (c :: X) = (parseStringBody X).map (fun p => (c :: p.1, p.2)) := by
  rw [parseStringBody.eq_def]
  simp [h1, h2]

theorem parseStringBody_escape (s : List Char) :
    ∀ rest, parseStringBody (escString s ++ '"' :: rest) = some (s, rest) := by
  induction s with
  | nil => intro rest; simp [escString, psb_quote]
  | cons c t ih =>
    intro rest
    show parseStringBody (escChar c ++ escString t ++ '"' :: rest) = some (c :: t, rest)
    by_cases h1 : c = '"'
    · subst h1
      simp [escChar, psb_esc_quote, ih]
    · by_cases h2 : c = '\\'
      · subst h2
        simp [escChar, psb_esc_backslash, ih]
      · by_cases h3 : c = '\n'
        · subst h3
          simp [escChar, psb_esc_n, ih]
        · by_cases h4 : c = '\r'
          · subst h4
            simp [escChar, psb_esc_r, ih]
          · by_cases h5 : c = '\t'
            · subst h5
              simp [escChar, psb_esc_t, ih]
            · by_cases h6 : c.toNat = 8
              · have hc : Char.ofNat 8 = c := by
                  have := Char.ofNat_toNat c
                  rw [h6] at this
                  exact this
                simp [escChar, h1, h2, h3, h4, h5, h6, psb_esc_b, ih]
                exact hc
              · by_cases h7 : c.toNat = 12
                · have hc : Char.ofNat 12 = c := by
                    have := Char.ofNat_toNat c
                    rw [h7] at this
                    exact this
                  simp [escChar, h1, h2, h3, h4, h5, h6, h7, psb_esc_f, ih]
                  exact hc
                · by_cases h8 : c.toNat < 32
                  · have hdiv : c.toNat / 16 < 16 := by omega
                    have hmod : c.toNat % 16 < 16 := by omega
                    have hv0 : hexVal '0' = some 0 := by decide
                    have hcomb : 0 * 4096 + 0 * 256 + c.toNat / 16 * 16 + c.toNat % 16 =
                        c.toNat := by omega
                    simp only [escChar, h1, h2, h3, h4, h5, h6, h7, h8, if_neg, if_pos,
                      if_true, if_false, List.cons_append, List.nil_append]
                    rw [psb_esc_u '0' '0' (hexDigit (c.toNat / 16)) (hexDigit (c.toNat % 16))
                      0 0 (c.toNat / 16) (c.toNat % 16) _ hv0 hv0
                      (hexVal_hexDigit _ hdiv) (hexVal_hexDigit _ hmod), ih, hcomb,
                      Char.ofNat_toNat]
                    rfl
                  · have hne8 : c.toNat ≠ 8 := h6
                    simp only [escChar, h1, h2, h3, h4, h5, h6, h7, h8, if_neg, if_false,
                      List.cons_append, List.nil_append]
                    rw [psb_other c _ h1 h2, ih]
                    rfl

theorem mk_toList (k : String) : String.mk k.toList = k := rfl

theorem jsonMembers_of_not_any (fields : List (String × JSValue))
    (h : fields.any (fun kv => !kv.2.isUndef) = false) :
    jsonMembers fields = [] ∧ jsonRtFields fields = [] ∧ pfuelF fields = 0 := by
  induction fields with
  | nil => exact ⟨rfl, rfl, rfl⟩
  | cons kv t ih =>
    obtain ⟨k, v⟩ := kv
    simp only [List.any_cons, Bool.or_eq_false_iff, Bool.not_eq_eq_eq_not, Bool.not_true] at h
    obtain ⟨hv, ht⟩ := h
    have ht' : t.any (fun kv => !kv.2.isUndef) = false := by
      rw [List.any_eq_false]
      intro kv hkv
      have := List.any_eq_false.mp ht kv hkv
      simpa using this
    obtain ⟨h1, h2, h3⟩ := ih ht'
    exact ⟨by simp [jsonMembers, hv, h1], by simp [jsonRtFields, hv, h2],
      by simp [pfuelF, hv, h3]⟩

theorem jsonMembers_head (fields : List (String × JSValue))
    (h : fields.any (fun kv => !kv.2.isUndef) = true) :
    ∃ X, jsonMembers fields = '"' :: X := by
  induction fields with
  | nil => simp at h
  | cons kv t ih =>
    obtain ⟨k, v⟩ := kv
    by_cases hv : v.isUndef
    · simp only [List.any_cons, hv, Bool.not_true, Bool.false_or] at h
      obtain ⟨X, hX⟩ := ih h
      exact ⟨X, by simp [jsonMembers, hv, hX]⟩
    · refine ⟨escString k.toList ++ '"' :: ':' :: jsonStringify v ++
        (if t.any (fun kv => !kv.2.isUndef) then ',' :: jsonMembers t else jsonMembers t), ?_⟩
      simp [jsonMembers, hv, jsonQuote]

theorem pjv_null (f : Nat) (r : List Char) :
    parseJsonValue (f + 1) ('n' :: 'u' :: 'l' :: 'l' :: r) = some (.null, r) := by
  rw [parseJsonValue.eq_def]
  simp

theorem pjv_true (f : Nat) (r : List Char) :
    parseJsonValue (f + 1) ('t' :: 'r' :: 'u' :: 'e' :: r) = some (.bool true, r) := by
  rw [parseJsonValue.eq_def]
  simp

theorem pjv_false (f : Nat) (r : List Char) :
    parseJsonValue (f + 1) ('f' :: 'a' :: 'l' :: 's' :: 'e' :: r) = some (.bool false, r) := by
  rw [parseJsonValue.eq_def]
  simp

theorem pjv_str (f : Nat) (rest : List Char) :
    parseJsonValue (f + 1) ('"' :: rest) =
      (parseStringBody rest).map (fun p => (.str p.1, p.2)) := by
  rw [parseJsonValue.eq_def]
  simp

theorem pjv_obj_empty (f : Nat) (r : List Char) :
    parseJsonValue (f + 1) ('{' :: '}' :: r) = some (.obj [], r) := by
  rw [parseJsonValue.eq_def]
  simp

theorem pjv_obj (f : Nat) (X : List Char) :
    parseJsonValue (f + 1) ('{' :: '"' :: X) =
      (parseJsonMembers f ('"' :: X)).map (fun p => (.obj p.1, p.2)) := by
  rw [parseJsonValue.eq_def]
  simp

theorem pjv_neg (f : Nat) (rest : List Char) :
    parseJsonValue (f + 1) ('-' :: rest) =
      (parseJsonNat rest).map (fun p => (.num (JSNum.int (-(p.1 : Int))), p.2)) := by
  rw [parseJsonValue.eq_def]
  simp

theorem pjv_digit (f : Nat) (c : Char) (rest : List Char) (h : c.isDigit = true) :
    parseJsonValue (f + 1) (c :: rest) =
      (parseJsonNat (c :: rest)).map (fun p => (.num (JSNum.int (p.1 : Int)), p.2)) := by
  have hn : c ≠ 'n' := fun he => by simp [he] at h
  have ht : c ≠ 't' := fun he => by simp [he] at h
  have hf : c ≠ 'f' := fun he => by simp [he] at h
  have hq : c ≠ '"' := fun he => by simp [he] at h
  have hb : c ≠ '{' := fun he => by simp [he] at h
  have hm : c ≠ '-' := fun he => by simp [he] at h
  rw [parseJsonValue.eq_def]
  simp [hn, ht, hf, hq, hb, hm, h]

theorem pjm_step_comma (f : Nat) (restk r2 : List Char) (k : List Char) (v : JSValue)
    (r4 : List Char) (hk : parseStringBody restk = some (k, ':' :: r2))
    (hv : parseJsonValue f r2 = some (v, ',' :: r4)) :
    parseJsonMembers (f + 1) ('"' :: restk) =
      (parseJsonMembers f r4).map (fun p => ((String.mk k, v) :: p.1, p.2)) := by
  rw [parseJsonMembers.eq_def]
  simp only [hk, hv]

theorem pjm_step_close (f : Nat) (restk r2 : List Char) (k : List Char) (v : JSValue)
    (r4 : List Char) (hk : parseStringBody restk = some (k, ':' :: r2))
    (hv : parseJsonValue f r2 = some (v, '}' :: r4)) :
    parseJsonMembers (f + 1) ('"' :: restk) = some ([(String.mk k, v)], r4) := by
  rw [parseJsonMembers.eq_def]
  simp only [hk, hv]

theorem parseJsonMembers_print (fields : List (String × JSValue))
    (IH : ∀ kv ∈ fields, kv.2.isUndef = false →
      ∀ fuel rest, pfuel kv.2 ≤ fuel → noDigitHead rest = true →
        parseJsonValue fuel (jsonStringify kv.2 ++ rest) = some (jsonRt kv.2, rest)) :
    ∀ fuel rest, fields.any (fun kv => !kv.2.isUndef) = true → pfuelF fields ≤ fuel →
      parseJsonMembers fuel (jsonMembers fields ++ '}' :: rest) =
        some (jsonRtFields fields, rest) := by
  induction fields with
  | nil => intro fuel rest h _; simp at h
  | cons kv t iht =>
    intro fuel rest hany hfuel
    obtain ⟨k, v⟩ := kv
    by_cases hv : v.isUndef
    · have hanyt : t.any (fun kv => !kv.2.isUndef) = true := by
        simp only [List.any_cons, hv, Bool.not_true, Bool.false_or] at hany
        exact hany
      have hfuelt : pfuelF t ≤ fuel := by
        simp only [pfuelF, hv, if_true] at hfuel
        exact hfuel
      have := iht (fun kv hkv => IH kv (by simp [hkv])) fuel rest hanyt hfuelt
      simpa [jsonMembers, hv, jsonRtFields] using this
    · have hvf : v.isUndef = false := by simpa using hv
      have hfuel' : 1 + pfuel v + pfuelF t ≤ fuel := by
        simp only [pfuelF, hv, if_false] at hfuel
        exact hfuel
      obtain ⟨f, rfl⟩ : ∃ f, fuel = f + 1 := ⟨fuel - 1, by omega⟩
      have hmem : jsonMembers ((k, v) :: t) = jsonQuote k.toList ++ ':' :: jsonStringify v ++
          (if t.any (fun kv => !kv.2.isUndef) then ',' :: jsonMembers t else jsonMembers t) := by
        simp [jsonMembers, hv]
      by_cases hjt : t.any (fun kv => !kv.2.isUndef)
      · -- more members follow: separator is a comma
        have harr : jsonMembers ((k, v) :: t) ++ '}' :: rest =
            '"' :: (escString k.toList ++ '"' ::
              (':' :: (jsonStringify v ++ ',' :: (jsonMembers t ++ '}' :: rest)))) := by
          rw [hmem]
          simp [jsonQuote, hjt]
        have hk : parseStringBody (escString k.toList ++ '"' ::
            (':' :: (jsonStringify v ++ ',' :: (jsonMembers t ++ '}' :: rest)))) =
            some (k.toList, ':' :: (jsonStringify v ++ ',' :: (jsonMembers t ++ '}' :: rest))) :=
          parseStringBody_escape k.toList _
        have hval : parseJsonValue f (jsonStringify v ++ ',' :: (jsonMembers t ++ '}' :: rest)) =
            some (jsonRt v, ',' :: (jsonMembers t ++ '}' :: rest)) :=
          IH (k, v) (by simp) hvf f _ (by show pfuel v ≤ f; omega) (by rfl)
        rw [harr, pjm_step_comma f _ _ k.toList (jsonRt v) _ hk hval]
        have hrec := iht (fun kv hkv => IH kv (by simp [hkv])) f rest hjt (by omega)
        simp [hrec, jsonRtFields, hv, mk_toList]
      · -- last member: the closing brace follows directly
        have hjt' : t.any (fun kv => !kv.2.isUndef) = false := by simpa using hjt
        obtain ⟨hmt, hrt, _⟩ := jsonMembers_of_not_any t hjt'
        have harr : jsonMembers ((k, v) :: t) ++ '}' :: rest =
            '"' :: (escString k.toList ++ '"' ::
              (':' :: (jsonStringify v ++ '}' :: rest))) := by
          rw [hmem]
          simp [jsonQuote, hjt, hmt]
        have hk : parseStringBody (escString k.toList ++ '"' ::
            (':' :: (jsonStringify v ++ '}' :: rest))) =
            some (k.toList, ':' :: (jsonStringify v ++ '}' :: rest)) :=
          parseStringBody_escape k.toList _
        have hval : parseJsonValue f (jsonStringify v ++ '}' :: rest) =
            some (jsonRt v, '}' :: rest) :=
          IH (k, v) (by simp) hvf f _ (by show pfuel v ≤ f; omega) (by rfl)
        rw [harr, pjm_step_close f _ _ k.toList (jsonRt v) _ hk hval]
        simp [jsonRtFields, hv, hrt, mk_toList]

theorem parseJsonValue_print (v : JSValue) :
    v.isUndef = false →
    ∀ fuel rest, pfuel v ≤ fuel → noDigitHead rest = true →
      parseJsonValue fuel (jsonStringify v ++ rest) = some (jsonRt v, rest) := by
  induction v using JSValue.indOn with
  | hu => intro h; simp [JSValue.isUndef] at h
  | hn =>
    intro _ fuel rest hf _
    obtain ⟨f, rfl⟩ : ∃ f, fuel = f + 1 := ⟨fuel - 1, by simp [pfuel] at hf; omega⟩
    have : jsonStringify JSValue.null ++ rest = 'n' :: 'u' :: 'l' :: 'l' :: rest := rfl
    rw [this, pjv_null]
    rfl
  | hb b =>
    intro _ fuel rest hf _
    obtain ⟨f, rfl⟩ : ∃ f, fuel = f + 1 := ⟨fuel - 1, by simp [pfuel] at hf; omega⟩
    cases b
    · have : jsonStringify (JSValue.bool false) ++ rest =
          'f' :: 'a' :: 'l' :: 's' :: 'e' :: rest := rfl
      rw [this, pjv_false]
      rfl
    · have : jsonStringify (JSValue.bool true) ++ rest =
          't' :: 'r' :: 'u' :: 'e' :: rest := rfl
      rw [this, pjv_true]
      rfl
  | hm n =>
    intro _ fuel rest hf hrest
    obtain ⟨f, rfl⟩ : ∃ f, fuel = f + 1 := ⟨fuel - 1, by simp [pfuel] at hf; omega⟩
    cases n with
    | nan =>
      have : jsonStringify (JSValue.num JSNum.nan) ++ rest =
          'n' :: 'u' :: 'l' :: 'l' :: rest := rfl
      rw [this, pjv_null]
      rfl
    | int i =>
      by_cases hneg : i < 0
      · have : jsonStringify (JSValue.num (JSNum.int i)) ++ rest =
            '-' :: (JSValue.natDigits i.natAbs ++ rest) := by
          simp [jsonStringify, JSValue.intChars, hneg]
        rw [this, pjv_neg, parseJsonNat_digits _ _ hrest]
        have hii : JSNum.int (-(i.natAbs : Int)) = JSNum.int i := by
          rw [show -((i.natAbs : Int)) = i by omega]
        simp only [Option.map_some', hii]
        rfl
      · obtain ⟨hne, hall, _⟩ := natDigits_spec i.natAbs
        obtain ⟨c, cs, hcs⟩ : ∃ c cs, JSValue.natDigits i.natAbs = c :: cs := by
          cases h : JSValue.natDigits i.natAbs with
          | nil => exact absurd h hne
          | cons c cs => exact ⟨c, cs, rfl⟩
        have hcd : c.isDigit = true := by
          rw [hcs] at hall
          simp only [List.all_cons, Bool.and_eq_true] at hall
          exact hall.1
        have harr : jsonStringify (JSValue.num (JSNum.int i)) ++ rest =
            c :: (cs ++ rest) := by
          simp [jsonStringify, JSValue.intChars, hneg, hcs]
        rw [harr]
        rw [pjv_digit f c _ hcd]
        have : c :: (cs ++ rest) = JSValue.natDigits i.natAbs ++ rest := by simp [hcs]
        rw [this, parseJsonNat_digits _ _ hrest]
        have hii : JSNum.int ((i.natAbs : Int)) = JSNum.int i := by
          rw [show ((i.natAbs : Int)) = i by omega]
        simp only [Option.map_some', hii]
        rfl
  | hs s =>
    intro _ fuel rest hf _
    obtain ⟨f, rfl⟩ : ∃ f, fuel = f + 1 := ⟨fuel - 1, by simp [pfuel] at hf; omega⟩
    have harr : jsonStringify (JSValue.str s) ++ rest =
        '"' :: (escString s ++ '"' :: rest) := by
      simp [jsonStringify, jsonQuote]
    rw [harr, pjv_str, parseStringBody_escape]
    rfl
  | ho fields ih =>
    intro _ fuel rest hf _
    have hf' : 1 + pfuelF fields ≤ fuel := by simpa [pfuel] using hf
    obtain ⟨f, rfl⟩ : ∃ f, fuel = f + 1 := ⟨fuel - 1, by omega⟩
    by_cases hj : fields.any (fun kv => !kv.2.isUndef)
    · obtain ⟨X, hX⟩ := jsonMembers_head fields hj
      have harr : jsonStringify (JSValue.obj fields) ++ rest =
          '{' :: '"' :: (X ++ '}' :: rest) := by
        simp [jsonStringify, hX]
      rw [harr, pjv_obj]
      have : '"' :: (X ++ '}' :: rest) = jsonMembers fields ++ '}' :: rest := by simp [hX]
      rw [this]
      have hmem := parseJsonMembers_print fields
        (fun kv hkv => ih kv hkv) f rest hj (by omega)
      simp [hmem, jsonRt]
    · have hj' : fields.any (fun kv => !kv.2.isUndef) = false := by simpa using hj
      obtain ⟨hmt, hrt, _⟩ := jsonMembers_of_not_any fields hj'
      have harr : jsonStringify (JSValue.obj fields) ++ rest = '{' :: '}' :: rest := by
        simp [jsonStringify, hmt]
      rw [harr, pjv_obj_empty]
      simp [jsonRt, hrt]

theorem pfuelF_le (fields : List (String × JSValue))
    (ih : ∀ kv ∈ fields, pfuel kv.2 ≤ (jsonStringify kv.2).length + 1) :
    pfuelF fields ≤ (jsonMembers fields).length + 1 := by
  induction fields with
  | nil => simp [pfuelF]
  | cons kv t iht =>
    obtain ⟨k, v⟩ := kv
    have hiht := iht (fun kv hkv => ih kv (by simp [hkv]))
    by_cases hv : v.isUndef
    · simp only [pfuelF, hv, if_true, jsonMembers]
      exact hiht
    · have hihv : pfuel v ≤ (jsonStringify v).length + 1 := ih (k, v) (by simp)
      simp only [pfuelF, hv, if_false, jsonMembers]
      by_cases hjt : t.any (fun kv => !kv.2.isUndef) <;>
        simp only [hjt, if_true, if_false, List.length_append, List.length_cons,
          jsonQuote, List.cons_append] <;>
        simp <;> omega

theorem pfuel_le (v : JSValue) : pfuel v ≤ (jsonStringify v).length + 1 := by
  induction v using JSValue.indOn with
  | hu => simp [pfuel]
  | hn => simp [pfuel]
  | hb b => simp [pfuel]
  | hm n => simp [pfuel]
  | hs s => simp [pfuel]
  | ho fields ih =>
    have := pfuelF_le fields ih
    simp only [pfuel, jsonStringify, List.length_cons, List.length_append]
    simp at this ⊢
    omega

/-- `JSON.parse` inverts `JSON.stringify` up to the JS round-trip value map
(`NaN` to `null`, dropped `undefined` fields). -/
theorem jsonParse_stringify (v : JSValue) (hv : v.isUndef = false) :
    jsonParse (jsonStringify v) = some (jsonRt v) := by
  have hb := pfuel_le v
  have h := parseJsonValue_print v hv ((jsonStringify v).length + 1) [] (by omega) rfl
  rw [List.append_nil] at h
  simp [jsonParse, h]

/-! ## DecryptionService: normalization, envelope handling, AEAD model -/

open JSValue

/-- `replace(/ /g, '+')`. -/
def mapSpaces (cs : List Char) : List Char :=
  cs.map (fun c => if c = ' ' then '+' else c)

/-- URL-safe alphabet to standard: dash to `+`, underscore to slash. -/
def mapUrlSafe (cs : List Char) : List Char :=
  cs.map (fun c => if c = '-' then '+' else if c = '_' then '/' else c)

/-- Right-pad with `=` to a multiple of 4 characters (the
`paddingNeeded > 0` branch of both normalizers). -/
def padBase64 (cs : List Char) : List Char :=
  if cs.length % 4 > 0 then cs ++ List.replicate (4 - cs.length % 4) '=' else cs

/-- The normalization inside `base64ToArrayBuffer` (lines 289-323):
spaces to `+`, URL-safe alphabet to standard, then pad. -/
def normalizeBase64 (cs : List Char) : List Char :=
  padBase64 (mapUrlSafe (mapSpaces cs))

/-- `DecryptionService.fixPayloadFormat` (lines 174-193): spaces to `+`,
pad, THEN URL-safe conversion — the same three steps in a different order. -/
def fixPayloadFormat (payload : List Char) : List Char :=
  if payload = [] then payload
  else mapUrlSafe (padBase64 (mapSpaces payload))

/-- `DecryptionService.base64ToArrayBuffer` (lines 289-323): normalize,
then `atob`; all failures are wrapped into a
`Failed to decode base64 payload: ...` error. -/
def base64ToArrayBuffer (base64 : List Char) : Except JSError (List Nat) :=
  if base64 = [] then
    .error { msg := "Failed to decode base64 payload: Empty payload provided".toList }
  else
    match atobChars (normalizeBase64 base64) with
    | some bytes => .ok bytes
    | none => .error { msg := "Failed to decode base64 payload: Invalid character".toList }

/-- 16-byte authentication tag of the modelled AEAD primitive
(`crypto.subtle` AES-GCM): recomputable from key, IV and plaintext. -/
def aeadTag (key iv pt : List Nat) : List Nat :=
  (List.range 16).map (fun i => (key.sum + iv.sum * 3 + pt.sum * 7 + pt.length * 11 + i) % 256)

/-- Model of `crypto.subtle.encrypt` with AES-GCM: ciphertext is the
plaintext with the 16-byte tag appended. -/
def aeadEncrypt (key iv pt : List Nat) : List Nat :=
  pt ++ aeadTag key iv pt

/-- Model of `crypto.subtle.decrypt` with AES-GCM: strips and checks the
16-byte tag; a mismatch rejects, as a wrong key or corrupted data does. -/
def aeadDecrypt (key iv ct : List Nat) : Except JSError (List Nat) :=
  if ct.length < 16 then .error { msg := "Failed to decrypt data".toList }
  else
    let pt := ct.take (ct.length - 16)
    let tag := ct.drop (ct.length - 16)
    if tag = aeadTag key iv pt then .ok pt
    else .error { msg := "Failed to decrypt data".toList }

theorem aeadDecrypt_aeadEncrypt (key iv pt : List Nat) :
    aeadDecrypt key iv (aeadEncrypt key iv pt) = .ok pt := by
  have htag : (aeadTag key iv pt).length = 16 := by simp [aeadTag]
  have hlen : (aeadEncrypt key iv pt).length = pt.length + 16 := by
    simp [aeadEncrypt, htag]
  have hsub : (aeadEncrypt key iv pt).length - 16 = pt.length := by omega
  have htake : (aeadEncrypt key iv pt).take ((aeadEncrypt key iv pt).length - 16) = pt := by
    rw [hsub]
    simp [aeadEncrypt]
  have hdrop : (aeadEncrypt key iv pt).drop ((aeadEncrypt key iv pt).length - 16) =
      aeadTag key iv pt := by
    rw [hsub]
    simp [aeadEncrypt]
  rw [aeadDecrypt, if_neg (by omega)]
  simp only [htake, hdrop, if_pos rfl, if_true]

/-- JS `padEnd(n, c)` on a string. -/
def padEndChars (cs : List Char) (n : Nat) (c : Char) : List Char :=
  cs ++ List.replicate (n - cs.length) c

/-- Key material built inside `DecryptionService.importKey` (lines 50-65):
`new TextEncoder().encode(keyString.padEnd(32, '0').substring(0, 32))`. -/
def importKeyBytes (keyString : List Char) : List Nat :=
  utf8Encode ((padEndChars keyString 32 '0').take 32)

/-- Key material built inline in `DecryptionService.encrypt` (lines 372-378):
`new TextEncoder().encode(this.encryptionKey.padEnd(32, '0').substring(0, 32))`. -/
def encryptKeyBytes (encryptionKey : List Char) : List Nat :=
  utf8Encode ((padEndChars encryptionKey 32 '0').take 32)

/-- `DecryptionService.validateDecryptionKey` (lines 34-43): truthy string of
at least 16 characters. -/
def validateDecryptionKey (key : List Char) : Bool :=
  decide (key ≠ []) && decide (key.length ≥ 16)

/-- Model of `crypto.subtle.importKey('raw', keyBytes, AES-GCM, ...)`: the
Web Crypto API rejects raw AES key material whose length is not 16, 24 or
32 bytes with a `DataError` (the platform error's message text is
platform-dependent; it is modelled as a fixed string). -/
def subtleImportKey (keyBytes : List Nat) : Except JSError (List Nat) :=
  if keyBytes.length = 16 ∨ keyBytes.length = 24 ∨ keyBytes.length = 32 then .ok keyBytes
  else .error { msg := "Data provided to an operation does not meet requirements".toList }

/-- `DecryptionService.importKey` (lines 50-65): build the key material
(32 UTF-16 units, UTF-8 encoded), hand it to `crypto.subtle.importKey`, and
wrap any platform failure in `Failed to import encryption key: ...`. -/
def importKey (keyString : List Char) : Except JSError (List Nat) :=
  match subtleImportKey (importKeyBytes keyString) with
  | .ok k => .ok k
  | .error e => .error { msg := "Failed to import encryption key: ".toList ++ e.msg }

/-- `DecryptionService.parseInstructionSet` (lines 200-215): JSON-parse, then
structural validation; a `SyntaxError` becomes the `InvalidJson` error. -/
def parseInstructionSet (decryptedText : List Char) : Except JSError InstructionSetV :=
  match jsonParse decryptedText with
  | none => .error { msg := "Invalid JSON format in decrypted payload".toList }
  | some rawData => validateInstructionSet rawData

/-- Counts of cryptographic operations performed during one decryption
attempt (used to state that malformed envelopes are rejected before any
cryptographic call). -/
structure DecryptTrace where
  keyImports : Nat := 0
  aeadCalls : Nat := 0
deriving DecidableEq

/-- One pass of the body of `DecryptionService.decrypt` (lines 86-117 for the
first attempt, lines 128-157 for the retry): decode, length-check, split, key
importing, AEAD-decrypt, parse, validate. -/
def decryptAttempt (key payload : List Char) : Except JSError InstructionSetV × DecryptTrace :=
  match base64ToArrayBuffer payload with
  | .error e => (.error e, {})
  | .ok encryptedData =>
    if encryptedData.length < 12 + 16 + 1 then
      (.error { msg := "Encrypted payload too short - possibly corrupted".toList }, {})
    else
      let iv := encryptedData.take 12
      let ciphertext := encryptedData.drop 12
      match importKey key with
      | .error e => (.error e, { keyImports := 1 })
      | .ok cryptoKey =>
        match aeadDecrypt cryptoKey iv ciphertext with
        | .error e => (.error e, { keyImports := 1, aeadCalls := 1 })
        | .ok decryptedBuffer =>
          (parseInstructionSet (textDecode decryptedBuffer), { keyImports := 1, aeadCalls := 1 })

/-- Combine the traces of the first attempt and the retry. -/
def DecryptTrace.add (t1 t2 : DecryptTrace) : DecryptTrace :=
  { keyImports := t1.keyImports + t2.keyImports, aeadCalls := t1.aeadCalls + t2.aeadCalls }

/-- `DecryptionService.decrypt` (lines 72-167) before the error funnel:
input/key guards, first attempt, and the retry with `fixPayloadFormat`.
When the fixed payload differs and the retry also fails, the code throws the
retry's error (the `throw decryptionError` on line 160 is reached only when
`fixedPayload === encryptedPayload`). -/
def decryptRaw (key payload : List Char) : Except JSError InstructionSetV × DecryptTrace :=
  if payload = [] then
    (.error { msg := "Invalid encrypted payload provided".toList }, {})
  else if !validateDecryptionKey key then
    (.error { msg := "Invalid or missing decryption key".toList }, {})
  else
    match decryptAttempt key payload with
    | (.ok instructionSet, t1) => (.ok instructionSet, t1)
    | (.error decryptionError, t1) =>
      let fixedPayload := fixPayloadFormat payload
      if fixedPayload ≠ payload then
        match decryptAttempt key fixedPayload with
        | (.ok instructionSet, t2) => (.ok instructionSet, t1.add t2)
        | (.error retryError, t2) => (.error retryError, t1.add t2)
      else
        (.error decryptionError, t1)

/-- `"decrypt"` or `"key"` occurs in a message (JS `String.includes`). -/
def containsSub (pat cs : List Char) : Bool :=
  (List.range (cs.length + 1)).any (fun i => pat.isPrefixOf (cs.drop i))

/-- `DecryptionService.handleDecryptionError` (lines 329-357): messages
mentioning `decrypt` or `key` are replaced by the generic sanitized error
(keeping the original as an attachment); everything else is re-thrown
unchanged. -/
def handleDecryptionError (error : JSError) : JSError :=
  if containsSub "decrypt".toList error.msg || containsSub "key".toList error.msg then
    { msg := "Failed to process encrypted payload".toList, original := some error.msg }
  else error

/-- `DecryptionService.decrypt` including the outer catch that funnels every
failure through `handleDecryptionError`. -/
def decrypt (key payload : List Char) : Except JSError InstructionSetV × DecryptTrace :=
  match decryptRaw key payload with
  | (.ok instructionSet, t) => (.ok instructionSet, t)
  | (.error e, t) => (.error (handleDecryptionError e), t)

/-- `replace(/=+$/, '')`: strip trailing `=` padding. -/
def stripTrailingEq (cs : List Char) : List Char :=
  (cs.reverse.dropWhile (fun c => c = '=')).reverse

/-- Standard alphabet to URL-safe: `+` to dash, slash to underscore. -/
def mapToUrlSafe (cs : List Char) : List Char :=
  cs.map (fun c => if c = '+' then '-' else if c = '/' then '_' else c)

/-- `DecryptionService.encrypt` (lines 364-400): validate, serialize the
RAW argument, inline-build and raw-import the key material, AEAD-encrypt
under a caller-supplied fresh IV, prepend the IV, base64-encode, convert to
the URL-safe alphabet and strip padding.  The outer catch wraps any
validation or platform key-import failure in `Encryption failed: ...`. -/
def encrypt (key : List Char) (iv : List Nat) (instructionSet : JSValue) :
    Except JSError (List Char) :=
  match validateInstructionSet instructionSet with
  | .error e => .error { msg := "Encryption failed: ".toList ++ e.msg }
  | .ok _ =>
    let jsonData := jsonStringify instructionSet
    match subtleImportKey (encryptKeyBytes key) with
    | .error e => .error { msg := "Encryption failed: ".toList ++ e.msg }
    | .ok cryptoKey =>
      let encryptedBuffer := aeadEncrypt cryptoKey iv (utf8Encode jsonData)
      let combined := iv ++ encryptedBuffer
      let base64 := btoaChars combined
      .ok (stripTrailingEq (mapToUrlSafe base64))

/-! ## ClickHandler (click-handler.js) -/

/-- Externally observable effects of a routing decision. -/
inductive CHEvent where
  | navigate (url : List Char)
  | deeplinkAttempt (url : List Char)
  | track (actionType : List Char) (hasDeeplink hasClickUrl : Bool) (priority : JSValue)
  | errorHandled (msg : List Char) (actionType : List Char)
  | showError (msg : List Char)
  | warnNoInstructionSet
  | noUrlsIgnored
  | warnInvalidClickUrl
  | warnInvalidDeeplink
  | warnNoFallback
  | warnDeeplinkFailedNoFallback
deriving DecidableEq

/-- Outcome of the platform race inside `attemptDeeplinkOpen` (visibility
change or blur resolves `true`, the 2000ms timeout resolves `false`; a
rejected platform promise is modelled by `errored`). -/
inductive DLOutcome where
  | opened
  | failed
  | errored (e : JSError)
deriving DecidableEq

open JSValue

/-- `ClickHandler.openClickUrl` (lines 399-418): invalid argument shapes are
warned about and ignored; a string failing `new URL` makes the method throw
`Invalid click URL: ...`; a valid URL navigates the window. -/
def openClickUrl (clickUrl : JSValue) : List CHEvent × Option JSError :=
  if !truthy clickUrl || !isStringV clickUrl then ([.warnInvalidClickUrl], none)
  else if isValidUrlV clickUrl then ([.navigate (jsToString clickUrl)], none)
  else ([], some { msg := "Invalid click URL: ".toList ++ jsToString clickUrl })

/-- `ClickHandler.attemptDeeplinkOpen` (lines 336-393): non-string or falsy
URLs resolve `false` immediately; otherwise the iframe race decides. -/
def attemptDeeplinkOpen (deeplinkUrl : JSValue) (dl : DLOutcome) :
    Except JSError Bool × List CHEvent :=
  if !truthy deeplinkUrl || !isStringV deeplinkUrl then (.ok false, [.warnInvalidDeeplink])
  else
    match dl with
    | .opened => (.ok true, [.deeplinkAttempt (jsToString deeplinkUrl)])
    | .failed => (.ok false, [.deeplinkAttempt (jsToString deeplinkUrl)])
    | .errored e => (.error e, [.deeplinkAttempt (jsToString deeplinkUrl)])

/-- `ClickHandler.attemptDeeplinkWithFallback` (lines 309-329): on a `false`
resolution fall back to `click_url` when present; on a thrown error the
catch block also falls back to `click_url` when present.  (A fallback that
itself throws inside the `try` is retried once by the catch.) -/
def attemptDeeplinkWithFallback (instructionSet : JSValue) (dl : DLOutcome) :
    List CHEvent × Option JSError :=
  match attemptDeeplinkOpen (getProp instructionSet "deeplink_url") dl with
  | (.ok true, evs) => (evs, none)
  | (.ok false, evs) =>
    if truthy (getProp instructionSet "click_url") then
      let r := openClickUrl (getProp instructionSet "click_url")
      match r.2 with
      | none => (evs ++ r.1, none)
      | some _ =>
        if truthy (getProp instructionSet "click_url") then
          let r2 := openClickUrl (getProp instructionSet "click_url")
          (evs ++ r.1 ++ r2.1, r2.2)
        else (evs ++ r.1, none)
    else (evs ++ [.warnNoFallback], none)
  | (.error _, evs) =>
    if truthy (getProp instructionSet "click_url") then
      let r := openClickUrl (getProp instructionSet "click_url")
      (evs ++ r.1, r.2)
    else (evs, none)

/-- The `try` block of `ClickHandler.processClickAction` (lines 271-297):
the no-URL early return (which skips tracking), the three routing branches,
then `trackClickAction`. -/
def routeBody (instructionSet : JSValue) (actionType : List Char) (dl : DLOutcome) :
    List CHEvent × Option JSError :=
  if !truthy (getProp instructionSet "click_url") &&
      !truthy (getProp instructionSet "deeplink_url") then
    ([.noUrlsIgnored], none)
  else
    let r :=
      if truthy (getProp instructionSet "deeplink_priority") &&
          truthy (getProp instructionSet "deeplink_url") then
        attemptDeeplinkWithFallback instructionSet dl
      else if truthy (getProp instructionSet "click_url") then
        openClickUrl (getProp instructionSet "click_url")
      else
        match attemptDeeplinkOpen (getProp instructionSet "deeplink_url") dl with
        | (.ok true, evs) => (evs, none)
        | (.ok false, evs) => (evs ++ [.warnDeeplinkFailedNoFallback], none)
        | (.error e, evs) => (evs, some e)
    match r.2 with
    | some _ => r
    | none =>
      (r.1 ++ [.track actionType (truthy (getProp instructionSet "deeplink_url"))
        (truthy (getProp instructionSet "click_url"))
        (getProp instructionSet "deeplink_priority")], none)

/-- The mutable ClickHandler state relevant to routing. -/
structure CHState where
  instructionSet : Option JSValue
  isProcessingClick : Bool
deriving DecidableEq

/-- `ClickHandler.processClickAction` (lines 263-304): guard on a missing
instruction set, set `isProcessingClick`, run the routing body, catch any
thrown error via `handleClickError`, and reset `isProcessingClick` in the
`finally`. -/
def processClickAction (st : CHState) (actionType : List Char) (dl : DLOutcome) :
    CHState × List CHEvent :=
  match st.instructionSet with
  | none => (st, [.warnNoInstructionSet])
  | some instructionSet =>
    let body := routeBody instructionSet actionType dl
    match body.2 with
    | none => ({ st with isProcessingClick := false }, body.1)
    | some e =>
      ({ st with isProcessingClick := false },
        body.1 ++ [.errorHandled e.msg actionType,
          .showError "Navigation failed. Please try again.".toList])

/-- `ClickHandler.scheduleAutoClick` (lines 423-442): returns the delay
passed to `setTimeout` (`auto_click_delay || DEFAULT_AUTO_CLICK_DELAY`), or
`none` when no timer is armed. -/
def scheduleAutoClick (instructionSet : JSValue) : Option JSValue :=
  if !truthy (getProp instructionSet "auto_click") then none
  else some (if truthy (getProp instructionSet "auto_click_delay") then
    getProp instructionSet "auto_click_delay"
  else .num (JSNum.int 3000))

/-- The validated record as the plain JS object that `decrypt` hands to
`ClickHandler.initialize` (field order of the literal on lines 238-247). -/
def instructionSetToJS (is : InstructionSetV) : JSValue :=
  .obj [("image_url", is.image_url), ("click_url", is.click_url),
    ("deeplink_url", is.deeplink_url), ("auto_click", is.auto_click),
    ("deeplink_priority", is.deeplink_priority), ("auto_click_delay", is.auto_click_delay),
    ("title", is.title), ("description", is.description)]

/-- Is this event a navigation to the given URL? -/
def isNavigateTo (url : List Char) : CHEvent → Bool
  | .navigate u => u == url
  | _ => false

/-- Number of navigations to `url` in a trace. -/
def countNav (evs : List CHEvent) (url : List Char) : Nat :=
  (evs.filter (isNavigateTo url)).length

/-- Is this event an analytics-tracking record? -/
def isTrackEvent : CHEvent → Bool
  | .track _ _ _ _ => true
  | _ => false

/-- Number of tracking records in a trace. -/
def countTrack (evs : List CHEvent) : Nat :=
  (evs.filter isTrackEvent).length

/-! ## Claim theorems -/

/-- C10: every execution of `processClickAction` that begins (an instruction
set is present) leaves `isProcessingClick` false on completion — the
`finally` block resets the re-entrancy guard on every path, including when
routing throws, so the handler always returns to the Armed state. -/
theorem processClickAction_resets_guard (st : CHState) (is : JSValue)
    (actionType : List Char) (dl : DLOutcome) (h : st.instructionSet = some is) :
    (processClickAction st actionType dl).1.isProcessingClick = false := by
  simp only [processClickAction, h]
  cases hb : (routeBody is actionType dl).2 <;> simp

theorem processClickAction_resets_guard_witness :
    (processClickAction ⟨some (JSValue.obj []), true⟩ "auto_click".toList
      DLOutcome.failed).1.isProcessingClick = false :=
  processClickAction_resets_guard ⟨some (JSValue.obj []), true⟩ (JSValue.obj [])
    "auto_click".toList DLOutcome.failed rfl

/-- C2: with `deeplink_priority` truthy and both `deeplink_url` and
`click_url` set (valid), a deeplink attempt that resolves `false` or throws
leads to exactly one navigation to `click_url`, and a deeplink attempt that
resolves `true` leads to none. -/
theorem deeplink_priority_fallback (st : CHState) (is : JSValue) (actionType : List Char)
    (dl : DLOutcome) (c d : List Char)
    (hst : st.instructionSet = some is)
    (hprio : truthy (getProp is "deeplink_priority") = true)
    (hdl : getProp is "deeplink_url" = .str d) (hdne : d ≠ [])
    (hcu : getProp is "click_url" = .str c) (hcne : c ≠ [])
    (hval : isValidUrlChars c = true) :
    countNav (processClickAction st actionType dl).2 c =
      (if dl = DLOutcome.opened then 0 else 1) := by
  have htc : truthy (getProp is "click_url") = true := by rw [hcu]; simp [truthy, hcne]
  have htd : truthy (getProp is "deeplink_url") = true := by rw [hdl]; simp [truthy, hdne]
  have hopen : openClickUrl (getProp is "click_url") = ([.navigate c], none) := by
    rw [hcu]
    simp [openClickUrl, truthy, hcne, isStringV, isValidUrlV, jsToString, hval]
  cases dl with
  | opened =>
    have hado : attemptDeeplinkOpen (getProp is "deeplink_url") DLOutcome.opened =
        (.ok true, [.deeplinkAttempt d]) := by
      rw [hdl]
      simp [attemptDeeplinkOpen, truthy, hdne, isStringV, jsToString]
    simp [processClickAction, hst, routeBody, htc, htd, hprio,
      attemptDeeplinkWithFallback, hado, countNav, isNavigateTo]
  | failed =>
    have hado : attemptDeeplinkOpen (getProp is "deeplink_url") DLOutcome.failed =
        (.ok false, [.deeplinkAttempt d]) := by
      rw [hdl]
      simp [attemptDeeplinkOpen, truthy, hdne, isStringV, jsToString]
    simp [processClickAction, hst, routeBody, htc, htd, hprio,
      attemptDeeplinkWithFallback, hado, hopen, countNav, isNavigateTo]
  | errored e =>
    have hado : attemptDeeplinkOpen (getProp is "deeplink_url") (DLOutcome.errored e) =
        (.error e, [.deeplinkAttempt d]) := by
      rw [hdl]
      simp [attemptDeeplinkOpen, truthy, hdne, isStringV, jsToString]
    simp [processClickAction, hst, routeBody, htc, htd, hprio,
      attemptDeeplinkWithFallback, hado, hopen, countNav, isNavigateTo]

theorem deeplink_priority_fallback_witness :
    countNav (processClickAction
      ⟨some (JSValue.obj [("click_url", JSValue.str "https://play.google.com/x".toList),
        ("deeplink_url", JSValue.str "myapp://open".toList),
        ("deeplink_priority", JSValue.bool true)]), false⟩
      "manual_click".toList DLOutcome.failed).2 "https://play.google.com/x".toList = 1 := by
  have h := deeplink_priority_fallback
    ⟨some (JSValue.obj [("click_url", JSValue.str "https://play.google.com/x".toList),
      ("deeplink_url", JSValue.str "myapp://open".toList),
      ("deeplink_priority", JSValue.bool true)]), false⟩
    (JSValue.obj [("click_url", JSValue.str "https://play.google.com/x".toList),
      ("deeplink_url", JSValue.str "myapp://open".toList),
      ("deeplink_priority", JSValue.bool true)])
    "manual_click".toList DLOutcome.failed
    "https://play.google.com/x".toList "myapp://open".toList
    rfl (by decide) (by decide) (by decide) (by decide) (by decide) (by decide)
  simpa using h

/-- C8 (counterexample): an instruction set with `auto_click_delay: 0`
passes validation with delay `0`, yet `scheduleAutoClick` arms the timer
with the 3000ms default, because `auto_click_delay || DEFAULT` treats `0`
as unset. -/
theorem scheduleAutoClick_zero_counterexample :
    validateInstructionSet (.obj [("click_url", .str "https://x.test".toList),
        ("auto_click", .bool true), ("auto_click_delay", .num (JSNum.int 0))]) =
      .ok ⟨.undef, .str "https://x.test".toList, .null, .bool true, .bool false,
        .num (JSNum.int 0), .undef, .undef⟩ ∧
    scheduleAutoClick (instructionSetToJS
      ⟨.undef, .str "https://x.test".toList, .null, .bool true, .bool false,
        .num (JSNum.int 0), .undef, .undef⟩) = some (.num (JSNum.int 3000)) ∧
    (JSValue.num (JSNum.int 3000) ≠ JSValue.num (JSNum.int 0)) := by
  decide

/-- C8 (amended): the armed auto-click delay equals `auto_click_delay`
whenever that field holds a nonzero number, and equals the 3000ms default
when the field is `0`, `null` or unset. -/
theorem scheduleAutoClick_delay (is : JSValue)
    (h : truthy (getProp is "auto_click") = true) :
    (∀ d : Int, d ≠ 0 → getProp is "auto_click_delay" = .num (JSNum.int d) →
      scheduleAutoClick is = some (.num (JSNum.int d))) ∧
    ((getProp is "auto_click_delay" = .num (JSNum.int 0) ∨
        getProp is "auto_click_delay" = .undef ∨
        getProp is "auto_click_delay" = .null) →
      scheduleAutoClick is = some (.num (JSNum.int 3000))) := by
  constructor
  · intro d hd hprop
    have ht2 : truthy (.num (JSNum.int d)) = true := by simp [truthy, hd]
    simp [scheduleAutoClick, h, hprop, ht2]
  · intro hprop
    have ht : truthy (getProp is "auto_click_delay") = false := by
      rcases hprop with hp | hp | hp <;> rw [hp] <;> simp [truthy]
    simp [scheduleAutoClick, h, ht]

theorem scheduleAutoClick_delay_witness :
    scheduleAutoClick (JSValue.obj [("auto_click", JSValue.bool true),
      ("auto_click_delay", JSValue.num (JSNum.int 5000))]) =
      some (JSValue.num (JSNum.int 5000)) :=
  (scheduleAutoClick_delay (JSValue.obj [("auto_click", JSValue.bool true),
      ("auto_click_delay", JSValue.num (JSNum.int 5000))]) (by decide)).1
    5000 (by decide) (by decide)

/-- C9 (counterexample): an execution of `processClickAction` with neither
`click_url` nor `deeplink_url` set performs no tracking at all — the no-URL
early return happens before `trackClickAction`. -/
theorem track_skipped_counterexample :
    countTrack (processClickAction ⟨some (JSValue.obj []), false⟩
      "manual_click".toList DLOutcome.failed).2 = 0 := by
  decide

theorem countTrack_append (a b : List CHEvent) :
    countTrack (a ++ b) = countTrack a + countTrack b := by
  simp [countTrack, List.filter_append]

theorem countTrack_openClickUrl (u : JSValue) : countTrack (openClickUrl u).1 = 0 := by
  unfold openClickUrl
  split
  · simp [countTrack, isTrackEvent]
  · split <;> simp [countTrack, isTrackEvent]

theorem countTrack_attemptDeeplinkOpen (u : JSValue) (dl : DLOutcome) :
    countTrack (attemptDeeplinkOpen u dl).2 = 0 := by
  unfold attemptDeeplinkOpen
  split
  · simp [countTrack, isTrackEvent]
  · cases dl <;> simp [countTrack, isTrackEvent]

theorem countTrack_attemptDeeplinkWithFallback (is : JSValue) (dl : DLOutcome) :
    countTrack (attemptDeeplinkWithFallback is dl).1 = 0 := by
  have hado := countTrack_attemptDeeplinkOpen (getProp is "deeplink_url") dl
  have hwarn : countTrack [CHEvent.warnNoFallback] = 0 := by decide
  unfold attemptDeeplinkWithFallback
  cases h : attemptDeeplinkOpen (getProp is "deeplink_url") dl with
  | mk r evs =>
    rw [h] at hado
    simp only at hado
    cases r with
    | ok b =>
      cases b
      · simp only []
        split
        · cases h2 : (openClickUrl (getProp is "click_url")).2 with
          | none =>
            simp only [h2]
            rw [countTrack_append, hado, countTrack_openClickUrl]
          | some e =>
            simp only [h2]
            simp [countTrack_append, hado, countTrack_openClickUrl]
        · simp only []
          rw [countTrack_append, hado, hwarn]
      · simpa using hado
    | error e =>
      simp only []
      split
      · rw [countTrack_append, hado, countTrack_openClickUrl]
      · simpa using hado

theorem countTrack_routeBody (is : JSValue) (actionType : List Char) (dl : DLOutcome) :
    countTrack (routeBody is actionType dl).1 =
      if ((truthy (getProp is "click_url") = true ∨ truthy (getProp is "deeplink_url") = true) ∧
          (routeBody is actionType dl).2 = none) then 1 else 0 := by
  unfold routeBody
  by_cases hg : (!truthy (getProp is "click_url") && !truthy (getProp is "deeplink_url")) = true
  · rw [if_pos hg]
    simp only [Bool.and_eq_true, Bool.not_eq_eq_eq_not, Bool.not_true] at hg
    simp [countTrack, isTrackEvent, hg.1, hg.2]
  · rw [if_neg hg]
    simp only [Bool.and_eq_true, Bool.not_eq_eq_eq_not, Bool.not_true] at hg
    have hurls : truthy (getProp is "click_url") = true ∨
        truthy (getProp is "deeplink_url") = true := by
      rcases Bool.eq_false_or_eq_true (truthy (getProp is "click_url")) with hc | hc
      · exact Or.inl hc
      · rcases Bool.eq_false_or_eq_true (truthy (getProp is "deeplink_url")) with hd | hd
        · exact Or.inr hd
        · exact absurd ⟨hc, hd⟩ hg
    set r := (if truthy (getProp is "deeplink_priority") && truthy (getProp is "deeplink_url")
      then attemptDeeplinkWithFallback is dl
      else if truthy (getProp is "click_url") then openClickUrl (getProp is "click_url")
      else
        match attemptDeeplinkOpen (getProp is "deeplink_url") dl with
        | (.ok true, evs) => (evs, none)
        | (.ok false, evs) => (evs ++ [.warnDeeplinkFailedNoFallback], none)
        | (.error e, evs) => (evs, some e)) with hr
    have hr0 : countTrack r.1 = 0 := by
      rw [hr]
      split
      · exact countTrack_attemptDeeplinkWithFallback is dl
      · split
        · exact countTrack_openClickUrl _
        · have hado := countTrack_attemptDeeplinkOpen (getProp is "deeplink_url") dl
          cases h : attemptDeeplinkOpen (getProp is "deeplink_url") dl with
          | mk res evs =>
            rw [h] at hado
            simp only at hado
            cases res with
            | ok b =>
              cases b
              · simp only []
                rw [countTrack_append, hado]
                decide
              · simpa using hado
            | error e => simpa using hado
    cases h2 : r.2 with
    | none =>
      simp only [h2]
      rw [countTrack_append, hr0]
      simp [countTrack, isTrackEvent, hurls]
    | some e =>
      simp only [h2]
      simp [hr0, h2]

/-- C9 (amended): `processClickAction` records the action to the analytics
collaborator exactly when at least one of `click_url`/`deeplink_url` is set
and routing completes without throwing; the no-URL early return and a
thrown routing error both skip `trackClickAction`. -/
theorem track_exactly_on_completed_route (st : CHState) (is : JSValue)
    (actionType : List Char) (dl : DLOutcome) (hst : st.instructionSet = some is) :
    countTrack (processClickAction st actionType dl).2 =
      if ((truthy (getProp is "click_url") = true ∨ truthy (getProp is "deeplink_url") = true) ∧
          (routeBody is actionType dl).2 = none) then 1 else 0 := by
  have hroute := countTrack_routeBody is actionType dl
  simp only [processClickAction, hst]
  cases h2 : (routeBody is actionType dl).2 with
  | none =>
    simp only [h2] at hroute ⊢
    simpa using hroute
  | some e =>
    simp only [h2] at hroute ⊢
    have hroute' : countTrack (routeBody is actionType dl).1 = 0 := by
      rw [hroute]
      simp
    rw [countTrack_append, hroute']
    simp [countTrack, isTrackEvent]

theorem track_exactly_on_completed_route_witness :
    countTrack (processClickAction
      ⟨some (JSValue.obj [("click_url", JSValue.str "https://x.test".toList)]), false⟩
      "manual_click".toList DLOutcome.failed).2 = 1 := by
  have h := track_exactly_on_completed_route
    ⟨some (JSValue.obj [("click_url", JSValue.str "https://x.test".toList)]), false⟩
    (JSValue.obj [("click_url", JSValue.str "https://x.test".toList)])
    "manual_click".toList DLOutcome.failed rfl
  rw [h]
  decide

/-- C3: validation fails with a `ValidationError` whenever `click_url` is
absent or not a string (either the not-an-object error or the
click_url-required error), and accepts a raw input consisting of only a
syntactically valid `click_url` (image_url is optional). -/
theorem validate_requires_click_url :
    (∀ data : JSValue,
      (getProp data "click_url" = .undef ∨ isStringV (getProp data "click_url") = false) →
      ∃ e : JSError, validateInstructionSet data = .error e ∧
        (e.msg = "Invalid instruction set - must be an object".toList ∨
         e.msg = "Invalid instruction set - click_url is required and must be a string".toList)) ∧
    validateInstructionSet (.obj [("click_url", .str "https://x.test".toList)]) =
      .ok ⟨.undef, .str "https://x.test".toList, .null, .bool false, .bool false, .null,
        .undef, .undef⟩ := by
  constructor
  · intro data h
    by_cases h1 : (!truthy data || !isObjectType data) = true
    · refine ⟨{ msg := "Invalid instruction set - must be an object".toList }, ?_, Or.inl rfl⟩
      unfold validateInstructionSet
      rw [if_pos h1]
    · have h2 : (!truthy (getProp data "click_url") ||
          !isStringV (getProp data "click_url")) = true := by
        rcases h with hu | hs
        · rw [hu]
          simp [truthy]
        · simp [hs]
      refine ⟨{ msg :=
        "Invalid instruction set - click_url is required and must be a string".toList },
        ?_, Or.inr rfl⟩
      unfold validateInstructionSet
      rw [if_neg h1, if_pos h2]
  · decide

theorem validate_requires_click_url_witness :
    ∃ e : JSError, validateInstructionSet (.num (JSNum.int 5)) = .error e ∧
      (e.msg = "Invalid instruction set - must be an object".toList ∨
       e.msg = "Invalid instruction set - click_url is required and must be a string".toList) :=
  validate_requires_click_url.1 (.num (JSNum.int 5)) (Or.inl rfl)

/-! ## Normalization lemmas: the retry re-normalization decodes identically -/

theorem mapSpaces_no_space (cs : List Char) : ∀ c ∈ mapSpaces cs, c ≠ ' ' := by
  intro c hc
  simp only [mapSpaces, List.mem_map] at hc
  obtain ⟨a, _, ha⟩ := hc
  by_cases h : a = ' '
  · simp [h] at ha
    subst ha
    decide
  · simp [h] at ha
    subst ha
    exact h

theorem mapSpaces_id_of_no_space (cs : List Char) (h : ∀ c ∈ cs, c ≠ ' ') :
    mapSpaces cs = cs := by
  induction cs with
  | nil => rfl
  | cons c t ih =>
    have hc : c ≠ ' ' := h c (by simp)
    have ht := ih (fun c hmem => h c (by simp [hmem]))
    simp only [mapSpaces, List.map_cons] at ht ⊢
    simp [hc, ht]

theorem mapUrlSafe_no_space (cs : List Char) (h : ∀ c ∈ cs, c ≠ ' ') :
    ∀ c ∈ mapUrlSafe cs, c ≠ ' ' := by
  intro c hc
  simp only [mapUrlSafe, List.mem_map] at hc
  obtain ⟨a, hmem, ha⟩ := hc
  have := h a hmem
  by_cases h1 : a = '-'
  · simp [h1] at ha; subst ha; decide
  · by_cases h2 : a = '_'
    · simp [h1, h2] at ha; subst ha; decide
    · simp [h1, h2] at ha; subst ha; exact this

theorem padBase64_no_space (cs : List Char) (h : ∀ c ∈ cs, c ≠ ' ') :
    ∀ c ∈ padBase64 cs, c ≠ ' ' := by
  intro c hc
  simp only [padBase64] at hc
  by_cases hr : cs.length % 4 > 0
  · simp only [hr, if_pos] at hc
    rcases List.mem_append.mp hc with hm | hm
    · exact h c hm
    · have := List.eq_of_mem_replicate hm
      subst this
      decide
  · simp only [hr, if_neg, if_false] at hc
    exact h c hc

theorem mapUrlSafe_idem (cs : List Char) : mapUrlSafe (mapUrlSafe cs) = mapUrlSafe cs := by
  simp only [mapUrlSafe, List.map_map]
  apply List.map_congr_left
  intro a _
  by_cases h1 : a = '-'
  · simp [h1]
  · by_cases h2 : a = '_'
    · simp [h1, h2]
    · simp [h1, h2]

theorem mapUrlSafe_padBase64 (cs : List Char) :
    mapUrlSafe (padBase64 cs) = padBase64 (mapUrlSafe cs) := by
  simp only [padBase64, mapUrlSafe, List.length_map]
  by_cases hr : cs.length % 4 > 0
  · simp only [hr, if_pos, List.map_append, List.map_replicate]
    rfl
  · simp [hr]

theorem padBase64_mod (cs : List Char) : (padBase64 cs).length % 4 = 0 := by
  simp only [padBase64]
  by_cases hr : cs.length % 4 > 0
  · simp only [hr, if_pos, List.length_append, List.length_replicate]
    omega
  · simp only [hr, if_neg, if_false]
    omega

theorem padBase64_idem (cs : List Char) : padBase64 (padBase64 cs) = padBase64 cs := by
  have h := padBase64_mod cs
  rw [padBase64, if_neg (by omega)]

theorem normalizeBase64_fixPayloadFormat (p : List Char) :
    normalizeBase64 (fixPayloadFormat p) = normalizeBase64 p := by
  by_cases hp : p = []
  · simp [fixPayloadFormat, hp]
  · have hnosp : ∀ c ∈ mapUrlSafe (padBase64 (mapSpaces p)), c ≠ ' ' :=
      mapUrlSafe_no_space _ (padBase64_no_space _ (mapSpaces_no_space p))
    simp only [fixPayloadFormat, hp, if_neg, if_false, normalizeBase64]
    rw [mapSpaces_id_of_no_space _ hnosp, mapUrlSafe_idem, mapUrlSafe_padBase64,
      padBase64_idem]

theorem fixPayloadFormat_ne_nil (p : List Char) (hp : p ≠ []) : fixPayloadFormat p ≠ [] := by
  simp only [fixPayloadFormat, hp, if_neg, if_false]
  intro hcon
  have h1 : (mapUrlSafe (padBase64 (mapSpaces p))).length = 0 := by rw [hcon]; rfl
  have h2 : (padBase64 (mapSpaces p)).length ≥ (mapSpaces p).length := by
    simp only [padBase64]
    by_cases hr : (mapSpaces p).length % 4 > 0 <;> simp [hr]
  have h3 : (mapSpaces p).length = p.length := by simp [mapSpaces]
  have h4 : p.length > 0 := List.length_pos.mpr hp
  simp only [mapUrlSafe, List.length_map] at h1
  omega

theorem base64ToArrayBuffer_fix (p : List Char) (hp : p ≠ []) :
    base64ToArrayBuffer (fixPayloadFormat p) = base64ToArrayBuffer p := by
  simp only [base64ToArrayBuffer, fixPayloadFormat_ne_nil p hp, hp, if_neg, if_false,
    normalizeBase64_fixPayloadFormat]

theorem decryptAttempt_fix (key p : List Char) (hp : p ≠ []) :
    decryptAttempt key (fixPayloadFormat p) = decryptAttempt key p := by
  simp only [decryptAttempt, base64ToArrayBuffer_fix p hp]

/-- The configured default key from the constructor. -/
def defaultEncryptionKey : List Char := "default-encryption-key-32-chars!!".toList

/-- C5: when the first decryption attempt fails with error `e1`, `decrypt`
propagates exactly that first-attempt failure (through the sanitizer): the
retry re-normalization decodes the same bytes, so even when the retry path
is taken its failure coincides with the original one. -/
theorem decrypt_propagates_first_error (key payload : List Char) (e1 : JSError)
    (hp : payload ≠ []) (hk : validateDecryptionKey key = true)
    (h1 : (decryptAttempt key payload).1 = .error e1) :
    (decryptRaw key payload).1 = .error e1 ∧
    (decrypt key payload).1 = .error (handleDecryptionError e1) := by
  have hfix := decryptAttempt_fix key payload hp
  have hraw : (decryptRaw key payload).1 = .error e1 := by
    unfold decryptRaw
    rw [if_neg hp, if_neg (by rw [hk]; simp)]
    cases ha : decryptAttempt key payload with
    | mk r t1 =>
      rw [ha] at h1
      simp only at h1
      subst h1
      simp only [ha]
      by_cases hne : fixPayloadFormat payload ≠ payload
      · rw [if_pos hne]
        simp only [hfix, ha]
      · rw [if_neg hne]
  refine ⟨hraw, ?_⟩
  unfold decrypt
  cases hr : decryptRaw key payload with
  | mk r t =>
    rw [hr] at hraw
    simp only at hraw
    subst hraw
    rfl

theorem decrypt_propagates_first_error_witness :
    (decryptRaw defaultEncryptionKey "dGVzdA".toList).1 =
      .error { msg := "Encrypted payload too short - possibly corrupted".toList } ∧
    (decrypt defaultEncryptionKey "dGVzdA".toList).1 =
      .error (handleDecryptionError
        { msg := "Encrypted payload too short - possibly corrupted".toList }) :=
  decrypt_propagates_first_error defaultEncryptionKey "dGVzdA".toList
    { msg := "Encrypted payload too short - possibly corrupted".toList }
    (by decide) (by decide) (by decide)

/-- C6 (amended): for every NON-EMPTY base64 input whose decoded byte length
is below `IV_LENGTH + TAG_LENGTH + 1 = 29` (under a configured key passing
the length check), `decrypt` fails with the `MalformedEnvelope` error and
performs no cryptographic operation: no key import and no AEAD call. -/
theorem short_envelope_rejected (key payload : List Char) (bs : List Nat)
    (hp : payload ≠ []) (hk : validateDecryptionKey key = true)
    (hdec : base64ToArrayBuffer payload = .ok bs) (hlen : bs.length < 29) :
    decrypt key payload =
      (.error { msg := "Encrypted payload too short - possibly corrupted".toList },
       { keyImports := 0, aeadCalls := 0 }) := by
  have hatt : decryptAttempt key payload =
      (.error { msg := "Encrypted payload too short - possibly corrupted".toList }, {}) := by
    unfold decryptAttempt
    rw [hdec]
    simp only [if_pos (show bs.length < 12 + 16 + 1 by omega)]
  have hraw : decryptRaw key payload =
      (.error { msg := "Encrypted payload too short - possibly corrupted".toList },
       { keyImports := 0, aeadCalls := 0 }) := by
    unfold decryptRaw
    rw [if_neg hp, if_neg (by rw [hk]; simp)]
    simp only [hatt]
    by_cases hne : fixPayloadFormat payload ≠ payload
    · rw [if_pos hne]
      simp only [decryptAttempt_fix key payload hp, hatt]
      simp [DecryptTrace.add]
    · rw [if_neg hne]
  unfold decrypt
  simp only [hraw]
  have hsan : handleDecryptionError
      { msg := "Encrypted payload too short - possibly corrupted".toList } =
      { msg := "Encrypted payload too short - possibly corrupted".toList } := by decide
  rw [hsan]

theorem short_envelope_rejected_witness :
    decrypt defaultEncryptionKey "dGVzdA==".toList =
      (.error { msg := "Encrypted payload too short - possibly corrupted".toList },
       { keyImports := 0, aeadCalls := 0 }) :=
  short_envelope_rejected defaultEncryptionKey "dGVzdA==".toList [116, 101, 115, 116]
    (by decide) (by decide) (by decide) (by decide)

/-- C6 (counterexample to the unamended claim): the empty string is a valid
base64 encoding of zero bytes (fewer than 29), yet `decrypt` rejects it with
the `InvalidInput` error `Invalid encrypted payload provided`, not with
`MalformedEnvelope`. -/
theorem short_envelope_empty_counterexample :
    atobChars (normalizeBase64 []) = some [] ∧
    (decrypt defaultEncryptionKey []).1 =
      .error { msg := "Invalid encrypted payload provided".toList } ∧
    "Invalid encrypted payload provided".toList ≠
      "Encrypted payload too short - possibly corrupted".toList := by
  decide

/-- UTF-8 encoding of an all-ASCII string is the byte-per-character map. -/
theorem utf8Encode_ascii (s : List Char) (h : ∀ c ∈ s, c.toNat < 128) :
    utf8Encode s = s.map Char.toNat := by
  induction s with
  | nil => rfl
  | cons c t ih =>
    have hc : c.toNat < 128 := h c (by simp)
    have ht := ih (fun c hmem => h c (by simp [hmem]))
    have hstep : utf8Encode (c :: t) = utf8EncodeChar c ++ utf8Encode t := by
      simp [utf8Encode]
    rw [hstep, ht, utf8EncodeChar]
    simp [hc]

/-- C7 (amended): for every configured key string of single-byte (ASCII)
characters, both the decrypt-side and the encrypt-side key material are the
same 32 bytes, obtained by right-padding the key with the ASCII character
`'0'` (byte 48) and truncating to 32 bytes. -/
theorem key_material_pad_truncate (key : List Char) (hascii : ∀ c ∈ key, c.toNat < 128) :
    importKeyBytes key = encryptKeyBytes key ∧
    (importKeyBytes key).length = 32 ∧
    importKeyBytes key = (key.map Char.toNat ++ List.replicate (32 - key.length) 48).take 32 := by
  have hall : ∀ c ∈ (padEndChars key 32 '0').take 32, c.toNat < 128 := by
    intro c hc
    have hc' := List.mem_of_mem_take hc
    simp only [padEndChars] at hc'
    rcases List.mem_append.mp hc' with hm | hm
    · exact hascii c hm
    · have := List.eq_of_mem_replicate hm
      subst this
      decide
  have hpadlen : (padEndChars key 32 '0').length ≥ 32 := by
    simp only [padEndChars, List.length_append, List.length_replicate]
    omega
  have henc : importKeyBytes key =
      ((padEndChars key 32 '0').take 32).map Char.toNat := by
    rw [importKeyBytes, utf8Encode_ascii _ hall]
  refine ⟨rfl, ?_, ?_⟩
  · rw [henc]
    simp only [List.length_map, List.length_take]
    omega
  · rw [henc, padEndChars, List.map_take, List.map_append, List.map_replicate]
    rfl

theorem key_material_pad_truncate_witness :
    importKeyBytes "default-encryption-key-32-chars!!".toList =
      encryptKeyBytes "default-encryption-key-32-chars!!".toList ∧
    (importKeyBytes "default-encryption-key-32-chars!!".toList).length = 32 ∧
    importKeyBytes "default-encryption-key-32-chars!!".toList =
      ("default-encryption-key-32-chars!!".toList.map Char.toNat ++
        List.replicate (32 - "default-encryption-key-32-chars!!".toList.length) 48).take 32 :=
  key_material_pad_truncate "default-encryption-key-32-chars!!".toList (by decide)

/-- C7 (counterexample to the unamended claim): a configured key of 16
two-byte characters passes the key length check but yields 48 bytes of key
material, because `padEnd`/`substring` count UTF-16 code units while
`TextEncoder` emits UTF-8 bytes. -/
theorem key_material_non_ascii_counterexample :
    validateDecryptionKey (List.replicate 16 'é') = true ∧
    (importKeyBytes (List.replicate 16 'é')).length = 48 ∧ (48 ≠ 32) := by
  decide

/-- The envelope of a non-JSON plaintext (`hello`) under the default key
and an all-zero IV, exactly as `decrypt` would accept it. -/
def invalidJsonEnvelope : List Nat :=
  List.replicate 12 0 ++
    aeadEncrypt (importKeyBytes defaultEncryptionKey) (List.replicate 12 0)
      (utf8Encode "hello".toList)

/-- The base64 payload carrying `invalidJsonEnvelope`. -/
def invalidJsonPayload : List Char := btoaChars invalidJsonEnvelope

/-- C4: a payload that decrypts correctly but whose plaintext is not JSON
fails with the SANITIZED message `Failed to process encrypted payload`
(original `Invalid JSON format in decrypted payload` kept only as the
internal attachment): the InvalidJson message contains the substring
`decrypt` (in the word `decrypted`), so `handleDecryptionError` replaces
it, contradicting the documented propagation of non-sensitive errors. -/
theorem invalid_json_sanitized :
    (decrypt defaultEncryptionKey invalidJsonPayload).1 =
      .error { msg := "Failed to process encrypted payload".toList,
               original := some "Invalid JSON format in decrypted payload".toList } ∧
    containsSub "decrypt".toList "Invalid JSON format in decrypted payload".toList = true := by
  decide

/-! ## Round-trip infrastructure (C1) -/

theorem mem_jsonRtFields_keys (t : List (String × JSValue)) :
    ∀ p ∈ jsonRtFields t, ∃ kv ∈ t, p.1 = kv.1 := by
  induction t with
  | nil => intro p hp; simp [jsonRtFields] at hp
  | cons kv0 t0 ih =>
    obtain ⟨k0, v0⟩ := kv0
    intro p hp
    by_cases hv : v0.isUndef
    · simp only [jsonRtFields, hv, if_true] at hp
      obtain ⟨kv, hmem, hk⟩ := ih p hp
      exact ⟨kv, by simp [hmem], hk⟩
    · simp only [jsonRtFields, hv, if_false] at hp
      cases hp with
      | head => exact ⟨(k0, v0), by simp, by simp⟩
      | tail _ hmem2 =>
        obtain ⟨kv, hmem, hk⟩ := ih p hmem2
        exact ⟨kv, by simp [hmem], hk⟩

theorem getProp_rtFields_of_not_mem (t : List (String × JSValue)) (k : String)
    (h : ∀ kv ∈ t, kv.1 ≠ k) : getProp (.obj (jsonRtFields t)) k = .undef := by
  have hnone : (jsonRtFields t).find? (fun p => p.1 == k) = none := by
    rw [List.find?_eq_none]
    intro p hp
    obtain ⟨kv, hmem, hk⟩ := mem_jsonRtFields_keys t p hp
    simp [hk, h kv hmem]
  simp [getProp, hnone]

theorem getProp_jsonRt_obj (fields : List (String × JSValue))
    (hnd : (fields.map Prod.fst).Nodup) (k : String) :
    getProp (.obj (jsonRtFields fields)) k = jsonRt (getProp (.obj fields) k) := by
  induction fields with
  | nil => simp [jsonRtFields, getProp, List.find?, jsonRt]
  | cons kv0 t ih =>
    obtain ⟨k0, v0⟩ := kv0
    simp only [List.map_cons, List.nodup_cons, List.mem_map] at hnd
    obtain ⟨hk0, hndt⟩ := hnd
    by_cases hk : k0 = k
    · subst hk
    -- the looked-up key is the head key
      by_cases hv : v0.isUndef
      · have hu : v0 = .undef := by
          cases v0 <;> first | rfl | simp [JSValue.isUndef] at hv
        subst hu
        have hnotmem : ∀ kv ∈ t, kv.1 ≠ k0 := by
          intro kv hmem hcon
          exact hk0 ⟨kv, hmem, hcon⟩
        have hred : jsonRtFields ((k0, JSValue.undef) :: t) = jsonRtFields t := by
          simp [jsonRtFields, JSValue.isUndef]
        rw [hred, getProp_rtFields_of_not_mem t k0 hnotmem]
        simp [getProp, List.find?, jsonRt]
      · simp [jsonRtFields, hv, getProp, List.find?]
    · by_cases hv : v0.isUndef
      · have ht := ih hndt
        simp only [jsonRtFields, hv, if_true]
        rw [ht]
        have : (k0 == k) = false := by simp [hk]
        simp [getProp, List.find?, this]
      · have ht := ih hndt
        have hbk : (k0 == k) = false := by simp [hk]
        simp only [jsonRtFields, hv, if_false]
        simp only [getProp, List.find?, hbk] at ht ⊢
        exact ht

/-- Successful run of `validateInstructionSet`, with the produced record
expressed in terms of the input's properties. -/
theorem validate_pass (J : JSValue)
    (h1 : (!truthy J || !isObjectType J) = false)
    (h2 : (!truthy (getProp J "click_url") || !isStringV (getProp J "click_url")) = false)
    (h3 : (truthy (getProp J "image_url") && !isValidUrlV (getProp J "image_url")) = false)
    (h4 : isValidUrlV (getProp J "click_url") = true)
    (h5 : truthy (getProp J "deeplink_url") = true → isStringV (getProp J "deeplink_url") = true)
    (h6 : (getProp J "auto_click_delay").isUndef = false →
      (toNumber (getProp J "auto_click_delay")).isNaN = false ∧
      (toNumber (getProp J "auto_click_delay")).isNeg = false) :
    validateInstructionSet J = .ok
      ⟨getProp J "image_url",
       getProp J "click_url",
       (if truthy (getProp J "deeplink_url") = true then getProp J "deeplink_url" else .null),
       .bool (truthy (getProp J "auto_click")),
       .bool (truthy (getProp J "deeplink_priority")),
       (if (getProp J "auto_click_delay").isUndef = true then .null
        else .num (toNumber (getProp J "auto_click_delay"))),
       getProp J "title", getProp J "description"⟩ := by
  have htc : truthy (getProp J "click_url") = true := by
    rcases Bool.eq_false_or_eq_true (truthy (getProp J "click_url")) with hc | hc
    · exact hc
    · exfalso
      rw [hc] at h2
      simp at h2
  unfold validateInstructionSet
  rw [if_neg (by simp [h1]), if_neg (by simp [h2]), if_neg (by simp [h3])]
  simp only [htc, if_true, if_pos]
  rw [if_neg (by simp [htc, h4])]
  rw [if_neg ?hdl]
  case hdl =>
    intro hcon
    rw [Bool.and_eq_true] at hcon
    by_cases hdt : truthy (getProp J "deeplink_url") = true
    · rw [if_pos hdt] at hcon
      simp [h5 hdt] at hcon
    · rw [if_neg hdt] at hcon
      simp [truthy] at hcon
  by_cases hdu : (getProp J "auto_click_delay").isUndef = true
  · rw [if_neg (by simp [hdu])]
    simp [hdu]
  · have hdu' : (getProp J "auto_click_delay").isUndef = false := by simpa using hdu
    obtain ⟨hnan, hneg⟩ := h6 hdu'
    rw [if_pos (by simp [hdu'])]
    rw [if_neg (by simp [hnan, hneg])]
    simp [hdu']

theorem utf8EncodeChar_lt_256 (c : Char) : ∀ b ∈ utf8EncodeChar c, b < 256 := by
  have hv : c.toNat < 0x110000 := by
    rcases c.valid with h | h
    · exact Nat.lt_trans h (by norm_num)
    · exact h.2
  intro b hb
  simp only [utf8EncodeChar] at hb
  by_cases h1 : c.toNat < 0x80
  · simp [h1] at hb
    omega
  · by_cases h2 : c.toNat < 0x800
    · simp [h1, h2] at hb
      rcases hb with hb | hb <;> omega
    · by_cases h3 : c.toNat < 0x10000
      · simp [h1, h2, h3] at hb
        rcases hb with hb | hb | hb <;> omega
      · simp [h1, h2, h3] at hb
        rcases hb with hb | hb | hb | hb <;> omega

theorem utf8Encode_lt_256 (s : List Char) : ∀ b ∈ utf8Encode s, b < 256 := by
  intro b hb
  simp only [utf8Encode, List.mem_flatten, List.mem_map] at hb
  obtain ⟨l, ⟨c, _, hc⟩, hbl⟩ := hb
  subst hc
  exact utf8EncodeChar_lt_256 c b hbl

theorem aeadTag_lt_256 (key iv pt : List Nat) : ∀ b ∈ aeadTag key iv pt, b < 256 := by
  intro b hb
  simp only [aeadTag, List.mem_map] at hb
  obtain ⟨i, _, hi⟩ := hb
  subst hi
  exact Nat.mod_lt _ (by omega)

theorem aeadEncrypt_lt_256 (key iv pt : List Nat) (hpt : ∀ b ∈ pt, b < 256) :
    ∀ b ∈ aeadEncrypt key iv pt, b < 256 := by
  intro b hb
  rcases List.mem_append.mp hb with hm | hm
  · exact hpt b hm
  · exact aeadTag_lt_256 key iv pt b hm

theorem sixToChar_safe : ∀ n, n < 64 →
    sixToChar n ≠ ' ' ∧ sixToChar n ≠ '-' ∧ sixToChar n ≠ '_' := by decide

/-- Shape of `btoa` output: a body of non-`=` characters followed by at most
two `=` pads, total length a multiple of 4. -/
theorem btoa_shape (B : List Nat) (h : ∀ b ∈ B, b < 256) :
    ∃ body k, btoaChars B = body ++ List.replicate k '=' ∧ k ≤ 2 ∧
      (∀ c ∈ body, c ≠ '=') ∧ (body.length + k) % 4 = 0 := by
  induction B using btoaChars.induct with
  | case1 => exact ⟨[], 0, rfl, by omega, by simp, by simp⟩
  | case2 b0 =>
    have hb0 : b0 < 256 := h b0 (by simp)
    refine ⟨[sixToChar (b0 / 4), sixToChar (b0 % 4 * 16)], 2, rfl, by omega, ?_, by simp⟩
    intro c hc
    rcases List.mem_cons.mp hc with hc | hc
    · subst hc; exact sixToChar_ne_pad _ (by omega)
    · rcases List.mem_cons.mp hc with hc | hc
      · subst hc; exact sixToChar_ne_pad _ (by omega)
      · simp at hc
  | case3 b0 b1 =>
    have hb0 : b0 < 256 := h b0 (by simp)
    have hb1 : b1 < 256 := h b1 (by simp)
    refine ⟨[sixToChar (b0 / 4), sixToChar (b0 % 4 * 16 + b1 / 16), sixToChar (b1 % 16 * 4)],
      1, rfl, by omega, ?_, by simp⟩
    intro c hc
    rcases List.mem_cons.mp hc with hc | hc
    · subst hc; exact sixToChar_ne_pad _ (by omega)
    · rcases List.mem_cons.mp hc with hc | hc
      · subst hc; exact sixToChar_ne_pad _ (by omega)
      · rcases List.mem_cons.mp hc with hc | hc
        · subst hc; exact sixToChar_ne_pad _ (by omega)
        · simp at hc
  | case4 b0 b1 b2 rest ih =>
    have hb0 : b0 < 256 := h b0 (by simp)
    have hb1 : b1 < 256 := h b1 (by simp)
    have hb2 : b2 < 256 := h b2 (by simp)
    obtain ⟨body, k, hbt, hk, hbody, hmod⟩ := ih (fun b hb => h b (by simp [hb]))
    refine ⟨sixToChar (b0 / 4) :: sixToChar (b0 % 4 * 16 + b1 / 16) ::
      sixToChar (b1 % 16 * 4 + b2 / 64) :: sixToChar (b2 % 64) :: body, k, ?_, hk, ?_, ?_⟩
    · simp [btoaChars, hbt]
    · intro c hc
      rcases List.mem_cons.mp hc with hc | hc
      · subst hc; exact sixToChar_ne_pad _ (by omega)
      · rcases List.mem_cons.mp hc with hc | hc
        · subst hc; exact sixToChar_ne_pad _ (by omega)
        · rcases List.mem_cons.mp hc with hc | hc
          · subst hc; exact sixToChar_ne_pad _ (by omega)
          · rcases List.mem_cons.mp hc with hc | hc
            · subst hc; exact sixToChar_ne_pad _ (by omega)
            · exact hbody c hc
    · simp only [List.length_cons]
      omega

/-- `btoa` characters are never space, dash or underscore. -/
theorem btoa_chars_safe (B : List Nat) (h : ∀ b ∈ B, b < 256) :
    ∀ c ∈ btoaChars B, c ≠ ' ' ∧ c ≠ '-' ∧ c ≠ '_' := by
  induction B using btoaChars.induct with
  | case1 => intro c hc; simp [btoaChars] at hc
  | case2 b0 =>
    have hb0 : b0 < 256 := h b0 (by simp)
    intro c hc
    simp only [btoaChars] at hc
    rcases List.mem_cons.mp hc with hc | hc
    · subst hc; exact sixToChar_safe _ (by omega)
    · rcases List.mem_cons.mp hc with hc | hc
      · subst hc; exact sixToChar_safe _ (by omega)
      · rcases List.mem_cons.mp hc with hc | hc
        · subst hc; refine ⟨by decide, by decide, by decide⟩
        · rcases List.mem_cons.mp hc with hc | hc
          · subst hc; refine ⟨by decide, by decide, by decide⟩
          · simp at hc
  | case3 b0 b1 =>
    have hb0 : b0 < 256 := h b0 (by simp)
    have hb1 : b1 < 256 := h b1 (by simp)
    intro c hc
    simp only [btoaChars] at hc
    rcases List.mem_cons.mp hc with hc | hc
    · subst hc; exact sixToChar_safe _ (by omega)
    · rcases List.mem_cons.mp hc with hc | hc
      · subst hc; exact sixToChar_safe _ (by omega)
      · rcases List.mem_cons.mp hc with hc | hc
        · subst hc; exact sixToChar_safe _ (by omega)
        · rcases List.mem_cons.mp hc with hc | hc
          · subst hc; refine ⟨by decide, by decide, by decide⟩
          · simp at hc
  | case4 b0 b1 b2 rest ih =>
    have hb0 : b0 < 256 := h b0 (by simp)
    have hb1 : b1 < 256 := h b1 (by simp)
    have hb2 : b2 < 256 := h b2 (by simp)
    intro c hc
    simp only [btoaChars] at hc
    rcases List.mem_cons.mp hc with hc | hc
    · subst hc; exact sixToChar_safe _ (by omega)
    · rcases List.mem_cons.mp hc with hc | hc
      · subst hc; exact sixToChar_safe _ (by omega)
      · rcases List.mem_cons.mp hc with hc | hc
        · subst hc; exact sixToChar_safe _ (by omega)
        · rcases List.mem_cons.mp hc with hc | hc
          · subst hc; exact sixToChar_safe _ (by omega)
          · exact ih (fun b hb => h b (by simp [hb])) c hc

theorem dropWhile_map_comm (g : Char → Char) (p : Char → Bool)
    (hg : ∀ c, p (g c) = p c) (l : List Char) :
    (l.map g).dropWhile p = (l.dropWhile p).map g := by
  induction l with
  | nil => rfl
  | cons c t ih =>
    simp only [List.map_cons, List.dropWhile_cons, hg c]
    by_cases hp : p c = true
    · simp [hp, ih]
    · simp only [Bool.not_eq_true] at hp
      simp [hp]

theorem stripTrailingEq_map (g : Char → Char)
    (hg : ∀ c, decide (g c = '=') = decide (c = '=')) (l : List Char) :
    stripTrailingEq (l.map g) = (stripTrailingEq l).map g := by
  simp only [stripTrailingEq]
  rw [← List.map_reverse, dropWhile_map_comm g _ hg, ← List.map_reverse]

theorem dropWhile_replicate_pad (k : Nat) (x : List Char) :
    (List.replicate k '=' ++ x).dropWhile (fun c => decide (c = '=')) =
      x.dropWhile (fun c => decide (c = '=')) := by
  induction k with
  | zero => simp
  | succ n ih => simp [List.replicate_succ, List.dropWhile_cons, ih]

theorem stripTrailingEq_body_pad (body : List Char) (k : Nat)
    (hbody : ∀ c ∈ body, c ≠ '=') :
    stripTrailingEq (body ++ List.replicate k '=') = body := by
  simp only [stripTrailingEq, List.reverse_append, List.reverse_replicate]
  rw [dropWhile_replicate_pad]
  have h2 : body.reverse.dropWhile (fun c => decide (c = '=')) = body.reverse := by
    cases hrev : body.reverse with
    | nil => rfl
    | cons c t =>
      have hc : c ∈ body := by
        have : c ∈ body.reverse := by rw [hrev]; simp
        simpa using this
      simp [List.dropWhile_cons, hbody c hc]
  rw [h2, List.reverse_reverse]

theorem padBase64_body (body : List Char) (k : Nat) (hk : k ≤ 2)
    (hmod : (body.length + k) % 4 = 0) :
    padBase64 body = body ++ List.replicate k '=' := by
  by_cases hk0 : k = 0
  · subst hk0
    simp only [List.replicate_zero, List.append_nil, padBase64]
    rw [if_neg (by omega)]
  · have hlen : body.length % 4 = 4 - k := by omega
    rw [padBase64, if_pos (by omega), hlen]
    congr 1
    congr 1
    omega

theorem mapUrlSafe_mapToUrlSafe (x : List Char) (hx : ∀ c ∈ x, c ≠ '-' ∧ c ≠ '_') :
    mapUrlSafe (mapToUrlSafe x) = x := by
  simp only [mapUrlSafe, mapToUrlSafe, List.map_map]
  have hpt : ∀ a ∈ x, ((fun c => if c = '-' then '+' else if c = '_' then '/' else c) ∘
      fun c => if c = '+' then '-' else if c = '/' then '_' else c) a = id a := by
    intro a ha
    obtain ⟨h1, h2⟩ := hx a ha
    by_cases hp : a = '+'
    · simp [hp]
    · by_cases hs : a = '/'
      · simp [hs]
      · simp [hp, hs, h1, h2]
  rw [List.map_congr_left hpt, List.map_id]

theorem mem_stripTrailingEq (l : List Char) (c : Char) (h : c ∈ stripTrailingEq l) :
    c ∈ l := by
  simp only [stripTrailingEq, List.mem_reverse] at h
  have hsub := List.dropWhile_sublist (l := l.reverse) (fun c => decide (c = '='))
  have := hsub.mem h
  simpa using this

theorem btoaChars_nil_iff (B : List Nat) : btoaChars B = [] ↔ B = [] := by
  constructor
  · intro h
    match B with
    | [] => rfl
    | [b0] => simp [btoaChars] at h
    | [b0, b1] => simp [btoaChars] at h
    | b0 :: b1 :: b2 :: rest => simp [btoaChars] at h
  · intro h
    subst h
    rfl

theorem mapToUrlSafe_decide_pad :
    ∀ c : Char, decide ((if c = '+' then '-' else if c = '/' then '_' else c) = '=') =
      decide (c = '=') := by
  intro c
  by_cases h1 : c = '+'
  · subst h1; decide
  · by_cases h2 : c = '/'
    · subst h2; decide
    · simp [h1, h2]

/-- The URL-safe, padding-stripped output of `encrypt` re-normalizes to the
exact `btoa` output, so the decoder recovers the original bytes. -/
theorem normalize_stripped_output (B : List Nat) (hB : ∀ b ∈ B, b < 256) :
    normalizeBase64 (stripTrailingEq (mapToUrlSafe (btoaChars B))) = btoaChars B := by
  obtain ⟨body, k, hshape, hk, hbody, hmod⟩ := btoa_shape B hB
  have hsafe := btoa_chars_safe B hB
  have hstrip : stripTrailingEq (mapToUrlSafe (btoaChars B)) =
      mapToUrlSafe (stripTrailingEq (btoaChars B)) := by
    have := stripTrailingEq_map
      (fun c => if c = '+' then '-' else if c = '/' then '_' else c)
      mapToUrlSafe_decide_pad (btoaChars B)
    simpa [mapToUrlSafe] using this
  rw [hstrip, hshape, stripTrailingEq_body_pad body k hbody]
  have hbodymem : ∀ c ∈ body, c ∈ btoaChars B := by
    intro c hc
    rw [hshape]
    exact List.mem_append_left _ hc
  have hnosp : ∀ c ∈ mapToUrlSafe body, c ≠ ' ' := by
    intro c hc
    simp only [mapToUrlSafe, List.mem_map] at hc
    obtain ⟨a, ha, hac⟩ := hc
    have hsa := hsafe a (hbodymem a ha)
    by_cases h1 : a = '+'
    · simp [h1] at hac; subst hac; decide
    · by_cases h2 : a = '/'
      · simp [h1, h2] at hac; subst hac; decide
      · simp [h1, h2] at hac; subst hac; exact hsa.1
  have hbsafe : ∀ c ∈ body, c ≠ '-' ∧ c ≠ '_' := by
    intro c hc
    exact (hsafe c (hbodymem c hc)).2
  unfold normalizeBase64
  rw [mapSpaces_id_of_no_space _ hnosp, mapUrlSafe_mapToUrlSafe body hbsafe,
    padBase64_body body k hk hmod, ← hshape]

theorem stripped_output_ne_nil (B : List Nat) (hB : ∀ b ∈ B, b < 256) (hne : B ≠ []) :
    stripTrailingEq (mapToUrlSafe (btoaChars B)) ≠ [] := by
  obtain ⟨body, k, hshape, hk, hbody, hmod⟩ := btoa_shape B hB
  have hstrip : stripTrailingEq (mapToUrlSafe (btoaChars B)) =
      mapToUrlSafe (stripTrailingEq (btoaChars B)) := by
    have := stripTrailingEq_map
      (fun c => if c = '+' then '-' else if c = '/' then '_' else c)
      mapToUrlSafe_decide_pad (btoaChars B)
    simpa [mapToUrlSafe] using this
  rw [hstrip, hshape, stripTrailingEq_body_pad body k hbody]
  intro hcon
  have hb0 : body = [] := by
    have : (mapToUrlSafe body).length = 0 := by rw [hcon]; rfl
    simp only [mapToUrlSafe, List.length_map] at this
    exact List.eq_nil_of_length_eq_zero this
  subst hb0
  have hknil : k = 0 := by
    simp at hmod
    omega
  subst hknil
  have : btoaChars B = [] := by simpa using hshape
  exact hne ((btoaChars_nil_iff B).mp this)

/-- A deeplink_url value typed as the spec data model demands:
absent, `null`, or a nonempty string. -/
def dlTyped : JSValue → Bool
  | .undef => true
  | .null => true
  | .str s => decide (s ≠ [])
  | .bool _ => false
  | .num _ => false
  | .obj _ => false

/-- An auto_click_delay value typed as the spec data model demands and not
present-as-`null`: absent, or a non-negative (integral) number. -/
def delayTyped : JSValue → Bool
  | .undef => true
  | .null => false
  | .num (JSNum.int d) => decide (0 ≤ d)
  | .num JSNum.nan => false
  | .bool _ => false
  | .str _ => false
  | .obj _ => false

/-- SPEC-SIDE definition (from the claim's words, for comparison with the
code): the fields of the raw instruction set I, with absent optional fields
default-filled to `null` (deeplink_url, auto_click_delay, click_url) or to a
coerced boolean (auto_click, deeplink_priority), and present fields kept
exactly as they are in I. -/
def fillDefaultsSpec (I : JSValue) : InstructionSetV :=
  { image_url := getProp I "image_url"
    click_url := if (getProp I "click_url").isUndef then .null else getProp I "click_url"
    deeplink_url := if (getProp I "deeplink_url").isUndef then .null else getProp I "deeplink_url"
    auto_click := .bool (truthy (getProp I "auto_click"))
    deeplink_priority := .bool (truthy (getProp I "deeplink_priority"))
    auto_click_delay :=
      if (getProp I "auto_click_delay").isUndef then .null else getProp I "auto_click_delay"
    title := getProp I "title"
    description := getProp I "description" }

/-- The composite under scrutiny: encrypt the raw instruction set under a
fresh IV, then decrypt the produced wire string under the same key. -/
def decryptAfterEncrypt (key : List Char) (iv : List Nat) (I : JSValue) :
    Except JSError InstructionSetV :=
  match encrypt key iv I with
  | .ok payload => (decrypt key payload).1
  | .error e => .error e

theorem truthy_jsonRt (v : JSValue) : truthy (jsonRt v) = truthy v := by
  cases v with
  | undef => rfl
  | null => rfl
  | bool b => rfl
  | num n => cases n <;> rfl
  | str s => rfl
  | obj fields => rfl

theorem utf8EncodeChar_ne_nil (c : Char) : utf8EncodeChar c ≠ [] := by
  simp only [utf8EncodeChar]
  by_cases h1 : c.toNat < 0x80
  · simp [h1]
  · by_cases h2 : c.toNat < 0x800
    · simp [h1, h2]
    · by_cases h3 : c.toNat < 0x10000
      · simp [h1, h2, h3]
      · simp [h1, h2, h3]

theorem utf8Encode_cons_ne_nil (c : Char) (t : List Char) : utf8Encode (c :: t) ≠ [] := by
  intro h
  simp only [utf8Encode, List.map_cons, List.flatten_cons, List.append_eq_nil] at h
  exact utf8EncodeChar_ne_nil c h.1

theorem aeadEncrypt_length (key iv pt : List Nat) :
    (aeadEncrypt key iv pt).length = pt.length + 16 := by
  simp [aeadEncrypt, aeadTag]

theorem importKeyBytes_ascii_length (key : List Char)
    (hascii : ∀ c ∈ key, c.toNat < 128) : (importKeyBytes key).length = 32 := by
  have hall : ∀ c ∈ (padEndChars key 32 '0').take 32, c.toNat < 128 := by
    intro c hc
    have hc' := List.mem_of_mem_take hc
    simp only [padEndChars] at hc'
    rcases List.mem_append.mp hc' with hm | hm
    · exact hascii c hm
    · have := List.eq_of_mem_replicate hm
      subst this
      decide
  have hpadlen : (padEndChars key 32 '0').length ≥ 32 := by
    simp only [padEndChars, List.length_append, List.length_replicate]
    omega
  rw [importKeyBytes, utf8Encode_ascii _ hall]
  simp only [List.length_map, List.length_take]
  omega

/-- All-ASCII key material is exactly 32 bytes, so the raw AES import
succeeds. -/
theorem subtleImportKey_ascii (key : List Char)
    (hascii : ∀ c ∈ key, c.toNat < 128) :
    subtleImportKey (importKeyBytes key) = .ok (importKeyBytes key) := by
  rw [subtleImportKey,
    if_pos (Or.inr (Or.inr (importKeyBytes_ascii_length key hascii)))]

theorem importKey_ascii (key : List Char) (hascii : ∀ c ∈ key, c.toNat < 128) :
    importKey key = .ok (importKeyBytes key) := by
  simp only [importKey, subtleImportKey_ascii key hascii]

/-- The key-import error path is live: the 16-character two-byte key that
passes the length check yields 48 bytes of material, rejected by the raw
AES key format and wrapped by `importKey`. -/
theorem importKey_non_ascii_rejected :
    validateDecryptionKey (List.replicate 16 'é') = true ∧
    importKey (List.replicate 16 'é') = .error { msg :=
      ("Failed to import encryption key: " ++
        "Data provided to an operation does not meet requirements").toList } := by
  refine ⟨by decide, ?_⟩
  decide

/-- C1 (amended): round trip of the codec.  For every raw instruction set
whose fields are typed as the spec data model demands — a required nonempty
syntactically valid click_url string; deeplink_url absent, null or a nonempty
string; auto_click_delay absent or a non-negative number (not present as
null); image_url passing the URL guard; title, description and image_url
stable under the JSON value round trip; distinct top-level keys — and every
all-ASCII key passing the length check (non-ASCII keys yield key material
over 32 bytes, which the platform raw AES import rejects) and every 12-byte
IV, decrypting the encrypted wire string under the same key succeeds and
returns exactly the input with absent optional fields default-filled to
null/false. -/
theorem decrypt_encrypt_roundtrip
    (key : List Char) (iv : List Nat) (fields : List (String × JSValue)) (c : List Char)
    (hkey : validateDecryptionKey key = true)
    (hascii : ∀ ch ∈ key, ch.toNat < 128)
    (hivlen : iv.length = 12)
    (hivb : ∀ b ∈ iv, b < 256)
    (hnd : (fields.map Prod.fst).Nodup)
    (hclick : getProp (JSValue.obj fields) "click_url" = JSValue.str c)
    (hcne : c ≠ [])
    (hcurl : isValidUrlChars c = true)
    (himgguard : (truthy (getProp (JSValue.obj fields) "image_url") &&
      !isValidUrlV (getProp (JSValue.obj fields) "image_url")) = false)
    (himg : jsonRt (getProp (JSValue.obj fields) "image_url") =
      getProp (JSValue.obj fields) "image_url")
    (hdlt : dlTyped (getProp (JSValue.obj fields) "deeplink_url") = true)
    (hdel : delayTyped (getProp (JSValue.obj fields) "auto_click_delay") = true)
    (htit : jsonRt (getProp (JSValue.obj fields) "title") =
      getProp (JSValue.obj fields) "title")
    (hdes : jsonRt (getProp (JSValue.obj fields) "description") =
      getProp (JSValue.obj fields) "description") :
    decryptAfterEncrypt key iv (JSValue.obj fields) =
      .ok (fillDefaultsSpec (JSValue.obj fields)) := by
  have hgp : ∀ k, getProp (JSValue.obj (jsonRtFields fields)) k =
      jsonRt (getProp (JSValue.obj fields) k) := getProp_jsonRt_obj fields hnd
  -- validation of the raw input passes (needed for encrypt's ok branch)
  have h2J : (!truthy (getProp (JSValue.obj fields) "click_url") ||
      !isStringV (getProp (JSValue.obj fields) "click_url")) = false := by
    rw [hclick]
    simp [truthy, isStringV, hcne]
  have h4J : isValidUrlV (getProp (JSValue.obj fields) "click_url") = true := by
    rw [hclick]
    simp [isValidUrlV, jsToString, hcurl]
  have h5J : truthy (getProp (JSValue.obj fields) "deeplink_url") = true →
      isStringV (getProp (JSValue.obj fields) "deeplink_url") = true := by
    intro h
    cases hdlv : getProp (JSValue.obj fields) "deeplink_url" with
    | undef => rw [hdlv] at h; simp [truthy] at h
    | null => rw [hdlv] at h; simp [truthy] at h
    | str s => simp [isStringV]
    | bool b => rw [hdlv] at hdlt; simp [dlTyped] at hdlt
    | num n => rw [hdlv] at hdlt; simp [dlTyped] at hdlt
    | obj o => rw [hdlv] at hdlt; simp [dlTyped] at hdlt
  have h6J : (getProp (JSValue.obj fields) "auto_click_delay").isUndef = false →
      (toNumber (getProp (JSValue.obj fields) "auto_click_delay")).isNaN = false ∧
      (toNumber (getProp (JSValue.obj fields) "auto_click_delay")).isNeg = false := by
    intro h
    cases hdv : getProp (JSValue.obj fields) "auto_click_delay" with
    | undef => rw [hdv] at h; simp [JSValue.isUndef] at h
    | null => rw [hdv] at hdel; simp [delayTyped] at hdel
    | bool b => rw [hdv] at hdel; simp [delayTyped] at hdel
    | str s => rw [hdv] at hdel; simp [delayTyped] at hdel
    | obj o => rw [hdv] at hdel; simp [delayTyped] at hdel
    | num n =>
      cases n with
      | nan => rw [hdv] at hdel; simp [delayTyped] at hdel
      | int d =>
        rw [hdv] at hdel
        simp only [delayTyped, decide_eq_true_eq] at hdel
        refine ⟨by simp [toNumber, JSNum.isNaN], ?_⟩
        simp [toNumber, JSNum.isNeg]
        omega
  have hvalJ := validate_pass (JSValue.obj fields) rfl h2J himgguard h4J h5J h6J
  -- validation of the JSON-round-tripped value passes with the same record
  have h2R : (!truthy (getProp (JSValue.obj (jsonRtFields fields)) "click_url") ||
      !isStringV (getProp (JSValue.obj (jsonRtFields fields)) "click_url")) = false := by
    rw [hgp "click_url", hclick]
    simp [jsonRt, truthy, isStringV, hcne]
  have h3R : (truthy (getProp (JSValue.obj (jsonRtFields fields)) "image_url") &&
      !isValidUrlV (getProp (JSValue.obj (jsonRtFields fields)) "image_url")) = false := by
    rw [hgp "image_url", himg]
    exact himgguard
  have h4R : isValidUrlV (getProp (JSValue.obj (jsonRtFields fields)) "click_url") = true := by
    rw [hgp "click_url", hclick]
    simp [jsonRt, isValidUrlV, jsToString, hcurl]
  have h5R : truthy (getProp (JSValue.obj (jsonRtFields fields)) "deeplink_url") = true →
      isStringV (getProp (JSValue.obj (jsonRtFields fields)) "deeplink_url") = true := by
    rw [hgp "deeplink_url"]
    intro h
    cases hdlv : getProp (JSValue.obj fields) "deeplink_url" with
    | undef => rw [hdlv] at h; simp [jsonRt, truthy] at h
    | null => rw [hdlv] at h; simp [jsonRt, truthy] at h
    | str s => simp [jsonRt, isStringV]
    | bool b => rw [hdlv] at hdlt; simp [dlTyped] at hdlt
    | num n => rw [hdlv] at hdlt; simp [dlTyped] at hdlt
    | obj o => rw [hdlv] at hdlt; simp [dlTyped] at hdlt
  have h6R : (getProp (JSValue.obj (jsonRtFields fields)) "auto_click_delay").isUndef = false →
      (toNumber (getProp (JSValue.obj (jsonRtFields fields)) "auto_click_delay")).isNaN = false ∧
      (toNumber (getProp (JSValue.obj (jsonRtFields fields)) "auto_click_delay")).isNeg = false := by
    rw [hgp "auto_click_delay"]
    intro h
    cases hdv : getProp (JSValue.obj fields) "auto_click_delay" with
    | undef => rw [hdv] at h; simp [jsonRt, JSValue.isUndef] at h
    | null => rw [hdv] at hdel; simp [delayTyped] at hdel
    | bool b => rw [hdv] at hdel; simp [delayTyped] at hdel
    | str s => rw [hdv] at hdel; simp [delayTyped] at hdel
    | obj o => rw [hdv] at hdel; simp [delayTyped] at hdel
    | num n =>
      cases n with
      | nan => rw [hdv] at hdel; simp [delayTyped] at hdel
      | int d =>
        rw [hdv] at hdel
        simp only [delayTyped, decide_eq_true_eq] at hdel
        refine ⟨by simp [jsonRt, toNumber, JSNum.isNaN], ?_⟩
        simp [jsonRt, toNumber, JSNum.isNeg]
        omega
  have hvalR := validate_pass (JSValue.obj (jsonRtFields fields)) rfl h2R h3R h4R h5R h6R
  have hvalR' : validateInstructionSet (JSValue.obj (jsonRtFields fields)) =
      .ok (fillDefaultsSpec (JSValue.obj fields)) := by
    rw [hvalR]
    congr 1
    simp only [fillDefaultsSpec, InstructionSetV.mk.injEq]
    refine ⟨?_, ?_, ?_, ?_, ?_, ?_, ?_, ?_⟩
    · rw [hgp "image_url"]; exact himg
    · rw [hgp "click_url", hclick]
      simp [jsonRt, JSValue.isUndef]
    · rw [hgp "deeplink_url"]
      cases hdlv : getProp (JSValue.obj fields) "deeplink_url" with
      | undef => simp [jsonRt, truthy, JSValue.isUndef]
      | null => simp [jsonRt, truthy, JSValue.isUndef]
      | str s =>
        rw [hdlv] at hdlt
        simp only [dlTyped, decide_eq_true_eq] at hdlt
        simp [jsonRt, truthy, JSValue.isUndef, hdlt]
      | bool b => rw [hdlv] at hdlt; simp [dlTyped] at hdlt
      | num n => rw [hdlv] at hdlt; simp [dlTyped] at hdlt
      | obj o => rw [hdlv] at hdlt; simp [dlTyped] at hdlt
    · rw [hgp "auto_click", truthy_jsonRt]
    · rw [hgp "deeplink_priority", truthy_jsonRt]
    · rw [hgp "auto_click_delay"]
      cases hdv : getProp (JSValue.obj fields) "auto_click_delay" with
      | undef => simp [jsonRt, JSValue.isUndef]
      | null => rw [hdv] at hdel; simp [delayTyped] at hdel
      | bool b => rw [hdv] at hdel; simp [delayTyped] at hdel
      | str s => rw [hdv] at hdel; simp [delayTyped] at hdel
      | obj o => rw [hdv] at hdel; simp [delayTyped] at hdel
      | num n =>
        cases n with
        | nan => rw [hdv] at hdel; simp [delayTyped] at hdel
        | int d => simp [jsonRt, JSValue.isUndef, toNumber]
    · rw [hgp "title"]; exact htit
    · rw [hgp "description"]; exact hdes
  -- the wire pipeline
  set pt := utf8Encode (jsonStringify (JSValue.obj fields)) with hpt
  set combined := iv ++ aeadEncrypt (encryptKeyBytes key) iv pt with hcomb
  set payload := stripTrailingEq (mapToUrlSafe (btoaChars combined)) with hpay
  have hptB : ∀ b ∈ pt, b < 256 := utf8Encode_lt_256 _
  have hB : ∀ b ∈ combined, b < 256 := by
    intro b hb
    rw [hcomb] at hb
    rcases List.mem_append.mp hb with hm | hm
    · exact hivb b hm
    · exact aeadEncrypt_lt_256 _ _ _ hptB b hm
  have hpt_ne : pt ≠ [] := by
    rw [hpt]
    show utf8Encode ('{' :: (jsonMembers fields ++ ['}'])) ≠ []
    exact utf8Encode_cons_ne_nil _ _
  have hclen : combined.length = 12 + (pt.length + 16) := by
    rw [hcomb, List.length_append, aeadEncrypt_length, hivlen]
  have hptlen : 1 ≤ pt.length := by
    rcases Nat.eq_zero_or_pos pt.length with h | h
    · exact absurd (List.eq_nil_of_length_eq_zero h) hpt_ne
    · omega
  have hcomb_ne : combined ≠ [] := by
    intro h
    rw [h] at hclen
    simp only [List.length_nil] at hclen
    omega
  have hpay_ne : payload ≠ [] := by
    rw [hpay]
    exact stripped_output_ne_nil combined hB hcomb_ne
  have hb64 : base64ToArrayBuffer payload = .ok combined := by
    rw [base64ToArrayBuffer, if_neg hpay_ne, hpay,
      normalize_stripped_output combined hB, atobChars_btoaChars combined hB]
  have htake : combined.take 12 = iv := by
    rw [hcomb, ← hivlen, List.take_left]
  have hdrop : combined.drop 12 = aeadEncrypt (encryptKeyBytes key) iv pt := by
    rw [hcomb, ← hivlen, List.drop_left]
  have haead : aeadDecrypt (importKeyBytes key) (combined.take 12) (combined.drop 12) =
      .ok pt := by
    rw [htake, hdrop]
    exact aeadDecrypt_aeadEncrypt (encryptKeyBytes key) iv pt
  have hjp : jsonParse (jsonStringify (JSValue.obj fields)) =
      some (jsonRt (JSValue.obj fields)) := jsonParse_stringify _ rfl
  have hparse : parseInstructionSet (textDecode pt) =
      .ok (fillDefaultsSpec (JSValue.obj fields)) := by
    rw [hpt, textDecode_utf8Encode]
    unfold parseInstructionSet
    rw [hjp]
    exact hvalR'
  have hatt : decryptAttempt key payload =
      (.ok (fillDefaultsSpec (JSValue.obj fields)), { keyImports := 1, aeadCalls := 1 }) := by
    simp only [decryptAttempt, hb64]
    rw [if_neg (by omega : ¬ (combined.length < 12 + 16 + 1))]
    simp only [importKey_ascii key hascii, haead, hparse]
  have hraw : decryptRaw key payload =
      (.ok (fillDefaultsSpec (JSValue.obj fields)), { keyImports := 1, aeadCalls := 1 }) := by
    rw [decryptRaw, if_neg hpay_ne, if_neg (by simp [hkey])]
    simp only [hatt]
  have henc : encrypt key iv (JSValue.obj fields) = .ok payload := by
    have hsub : subtleImportKey (encryptKeyBytes key) = .ok (encryptKeyBytes key) :=
      subtleImportKey_ascii key hascii
    simp only [encrypt, hvalJ, hsub]
  unfold decryptAfterEncrypt
  rw [henc]
  simp only [decrypt, hraw]

theorem decrypt_encrypt_roundtrip_witness :
    decryptAfterEncrypt defaultEncryptionKey (List.replicate 12 0)
      (JSValue.obj [("click_url", JSValue.str "https://x.test".toList)]) =
      .ok (fillDefaultsSpec
        (JSValue.obj [("click_url", JSValue.str "https://x.test".toList)])) :=
  decrypt_encrypt_roundtrip defaultEncryptionKey (List.replicate 12 0)
    [("click_url", JSValue.str "https://x.test".toList)] "https://x.test".toList
    (by decide) (by decide) (by decide) (by decide) (by decide) (by decide)
    (by decide) (by decide) (by decide) (by decide) (by decide) (by decide)
    (by decide) (by decide)

/-- The raw instruction set refuting the unrestricted round-trip statement:
valid per the validator (click_url set and well-formed), with
`auto_click_delay` present as `null`. -/
def nullDelayInstructionSet : JSValue :=
  JSValue.obj [("click_url", JSValue.str "https://x.test".toList),
    ("auto_click_delay", JSValue.null)]

/-- C1 (counterexample): the instruction set `{click_url: "https://x.test",
auto_click_delay: null}` passes validation, and decrypt (encrypt I) under the
default key succeeds — but its `auto_click_delay` comes back as the number 0
(the validator re-coerces the present `null` with `Number(null) = 0`), while
I field-for-field with absent optionals default-filled keeps `null`; so the
round-tripped record differs from the default-filled input. -/
theorem roundtrip_null_delay_counterexample :
    decryptAfterEncrypt defaultEncryptionKey (List.replicate 12 0)
      nullDelayInstructionSet =
      .ok { image_url := JSValue.undef,
            click_url := JSValue.str "https://x.test".toList,
            deeplink_url := JSValue.null,
            auto_click := JSValue.bool false,
            deeplink_priority := JSValue.bool false,
            auto_click_delay := JSValue.num (JSNum.int 0),
            title := JSValue.undef, description := JSValue.undef } ∧
    (fillDefaultsSpec nullDelayInstructionSet).auto_click_delay = JSValue.null ∧
    decryptAfterEncrypt defaultEncryptionKey (List.replicate 12 0)
      nullDelayInstructionSet ≠
      .ok (fillDefaultsSpec nullDelayInstructionSet) := by
  refine ⟨?_, ?_, ?_⟩ <;> decide
